import Mathlib

/-
Shallow embedding of the clang-grader submission resolution & staging engine
(docker/grade_fetcher: staging.py, github_client.py, service.py, url_parser.py),
together with theorems settling the specification's claims about it.

Conventions of the embedding:
* Python dictionaries holding JSON objects are modelled as association lists
  (List (String × V)) with Python dict lookup/update semantics.
* Functions that perform I/O are modelled as pure functions over explicit
  environments; a raised exception is modelled as the error side of Except
  (or as Option.none where the call site only distinguishes success/failure).
* time.time() values and committer timestamps are integers (UTC instants).
-/

/-! ## Python dict semantics (staging.write_json_merge) -/

/-- Python dict assignment d[k] = v: replace the value at an existing key,
otherwise append the binding at the end. -/
def setKey {V : Type} (d : List (String × V)) (k : String) (v : V) : List (String × V) :=
  if d.any (fun p => p.1 = k) then
    d.map (fun p => if p.1 = k then (k, v) else p)
  else d ++ [(k, v)]

/-- Python dict.update(patch): assign every binding of the patch, left to right. -/
def dictUpdate {V : Type} (cur patch : List (String × V)) : List (String × V) :=
  patch.foldl (fun acc kv => setKey acc kv.1 kv.2) cur

/-- Lookup of a key in a dict (first binding wins, as in a well-formed dict). -/
def lookupKey {V : Type} (d : List (String × V)) (k : String) : Option V :=
  match d with
  | [] => none
  | (k', v) :: rest => if k' = k then some v else lookupKey rest k

/-- staging.write_json_merge: read the existing sidecar JSON object if the file
exists (`none` models a missing file), shallow-merge the patch into it with
dict.update, and rewrite the file with the merged object.  The function returns
the object that is written back. -/
def write_json_merge {V : Type} (current : Option (List (String × V))) (patch : List (String × V)) :
    List (String × V) :=
  dictUpdate (current.getD []) patch

/-! ## HTTP GET retry loop (github_client.GitHubClient._get) -/

/-- One HTTP response as observed by `_get`.  `rateLimitReset = some n` models a
present X-RateLimit-Reset header whose value is a digit string for the epoch
second n; `none` models an absent or non-numeric header. -/
structure HttpResp where
  status : Nat
  rateLimitReset : Option Nat
deriving DecidableEq

/-- How one call to `_get` ends. -/
inductive GetOutcome where
  /-- the response of this attempt is returned to the caller (status 200) -/
  | success (attempt : Nat)
  /-- RuntimeError raised at this attempt for a non-retriable status -/
  | fatalStatus (attempt : Nat) (status : Nat)
  /-- RuntimeError "exhausted retries" after max_tries attempts -/
  | exhausted
deriving DecidableEq

/-- The sleep chosen for a 403/429 response: `max(0, int(reset) - int(time.time()) + 1)`
when the header is present and numeric, else the current backoff. -/
def rateLimitSleep (resp : HttpResp) (now : Int) (backoff : Nat) : Int :=
  match resp.rateLimitReset with
  | some reset => max 0 ((reset : Int) - now + 1)
  | none => (backoff : Int)

/-- The retry loop of `_get`.  `env a` yields the response of attempt `a`
together with the value of `int(time.time())` at that attempt; `remaining` is the
number of attempts left, `backoff` the current backoff.  Returns the list of
sleeps performed (in order) and the outcome. -/
def getLoop (env : Nat → HttpResp × Int) (attempt remaining backoff : Nat) :
    List Int × GetOutcome :=
  match remaining with
  | 0 => ([], .exhausted)
  | r + 1 =>
    let resp := (env attempt).1
    let now := (env attempt).2
    if resp.status = 200 then ([], .success attempt)
    else if resp.status = 403 ∨ resp.status = 429 then
      let s := rateLimitSleep resp now backoff
      let rest := getLoop env (attempt + 1) r (min (backoff * 2) 60)
      (s :: rest.1, rest.2)
    else ([], .fatalStatus attempt resp.status)

/-- `_get` with its default max_tries = 6 and initial backoff 1.0. -/
def httpGet (env : Nat → HttpResp × Int) : List Int × GetOutcome :=
  getLoop env 1 6 1

/-! ## Commit resolution (github_client.get_commit_before, service._resolve_ref) -/

/-- One commit as seen by `get_commit_before`: its sha and its committer
timestamp as a UTC instant (the code parses the ISO timestamp and normalizes it
to UTC before comparing). -/
structure CommitInfo where
  sha : String
  ts : Int
deriving DecidableEq

/-- github_client.get_commit_before: walk the pages of the branch's commit
listing (newest first); an empty page stops the walk; return the sha of the
first commit whose timestamp is ≤ the cutoff; follow the next-page link when a
nonempty page has no qualifying commit; return none when pagination is
exhausted. -/
def get_commit_before : List (List CommitInfo) → Int → Option String
  | [], _ => none
  | page :: rest, limit =>
    match page with
    | [] => none
    | _ :: _ =>
      match page.find? (fun c => decide (c.ts ≤ limit)) with
      | some c => some c.sha
      | none => get_commit_before rest limit

/-- The per-student failure statuses of models.Status. -/
inductive Status where
  | url_parse_failed
  | default_branch_failed
  | commit_lookup_failed
  | no_commit_before_limit
  | head_lookup_failed
  | representative_fetch_failed
  | tree_list_failed
  | auto_pick_main_failed
  | no_sources_found
deriving DecidableEq

/-- The Status.value strings of models.Status. -/
def statusValue : Status → String
  | .url_parse_failed => "url_parse_failed"
  | .default_branch_failed => "default_branch_failed"
  | .commit_lookup_failed => "commit_lookup_failed"
  | .no_commit_before_limit => "no_commit_before_limit"
  | .head_lookup_failed => "head_lookup_failed"
  | .representative_fetch_failed => "representative_fetch_failed"
  | .tree_list_failed => "tree_list_failed"
  | .auto_pick_main_failed => "auto_pick_main_failed"
  | .no_sources_found => "no_sources_found"

/-- Environment for commit resolution: the results of the GitHub calls made by
`_resolve_ref` for one repository.  An `Except.error` models a raised
exception (carrying its message). -/
structure ResolveEnv where
  default_branch : Except String String
  branch_head : String → Except String String
  commit_pages : String → Except String (List (List CommitInfo))

/-- service.FetchService._resolve_ref: resolve the branch (falling back to the
default branch when the reference has none), then either walk the commit
history against the cutoff or take the branch head. -/
def resolve_ref (env : ResolveEnv) (branch? : Option String) (limit? : Option Int) :
    Except String (Option String) := do
  let branch ← match branch? with
    | some b => pure b
    | none => env.default_branch
  match limit? with
  | some limit => do
    let pages ← env.commit_pages branch
    pure (get_commit_before pages limit)
  | none => do
    let sha ← env.branch_head branch
    pure (some sha)

/-- How run_for_map's commit-resolution step for one student ends. -/
inductive ResolveOutcome where
  /-- record_failure with this status, then continue to the next student
  (so nothing is staged for this student) -/
  | failure (st : Status)
  /-- a commit sha was resolved and staging proceeds with it -/
  | staged (sha : String)
deriving DecidableEq

/-- service.FetchService.run_for_map, commit-resolution step for one student:
an exception from `_resolve_ref` is recorded as default_branch_failed when the
parsed reference has no branch and as head_lookup_failed otherwise; with a
cutoff configured, a falsy sha (None or "") is recorded as
no_commit_before_limit; otherwise staging proceeds. -/
def commit_resolution_step (env : ResolveEnv) (branch? : Option String) (limit? : Option Int) :
    ResolveOutcome :=
  match resolve_ref env branch? limit? with
  | .error _ =>
    .failure (if branch?.isNone then .default_branch_failed else .head_lookup_failed)
  | .ok sha? =>
    if limit?.isSome ∧ sha?.getD "" = "" then .failure .no_commit_before_limit
    else .staged (sha?.getD "")

/-- Files staged for one student given the outcome of commit resolution: a
failure outcome makes run_for_map `continue` to the next student, so
`_stage_student` is never invoked and no files are written. -/
def student_staged_files (outcome : ResolveOutcome) (stage : String → List (String × String)) :
    List (String × String) :=
  match outcome with
  | .failure _ => []
  | .staged sha => stage sha

/-! ## String helpers mirroring the Python string operations used by staging -/

/-- List-level prefix test (str.startswith). -/
def isPrefixL : List Char → List Char → Bool
  | [], _ => true
  | _ :: _, [] => false
  | a :: as, b :: bs => a = b && isPrefixL as bs

/-- List-level suffix test (str.endswith). -/
def isSuffixL (suf l : List Char) : Bool := isPrefixL suf.reverse l.reverse

/-- str.lower restricted to the ASCII paths this code handles. -/
def toLowerL (l : List Char) : List Char := l.map Char.toLower

/-- str.strip(c): drop the character c from both ends. -/
def stripCharL (c : Char) (l : List Char) : List Char :=
  ((l.dropWhile (fun x => x = c)).reverse.dropWhile (fun x => x = c)).reverse

/-- str.rstrip(c): drop the character c from the right end. -/
def rstripCharL (c : Char) (l : List Char) : List Char :=
  (l.reverse.dropWhile (fun x => x = c)).reverse

/-- s.strip("/") on strings. -/
def stripSlashes (s : String) : String := ⟨stripCharL '/' s.data⟩

/-- s.rstrip("/") on strings. -/
def rstripSlashes (s : String) : String := ⟨rstripCharL '/' s.data⟩

/-- s.lower().endswith(suf) for an ASCII suffix. -/
def endsWithLower (s suf : String) : Bool := isSuffixL suf.data (toLowerL s.data)

/-- s.startswith(p). -/
def startsWithL (s p : String) : Bool := isPrefixL p.data s.data

/-- Split a list on a separator element, like str.split(sep) (never returns []). -/
def splitSep {α : Type} [DecidableEq α] (sep : α) : List α → List (List α)
  | [] => [[]]
  | b :: rest =>
    match splitSep sep rest with
    | [] => [[]]
    | s :: ss => if b = sep then [] :: s :: ss else (b :: s) :: ss

/-- Join with a separator element, like sep.join. -/
def joinSep {α : Type} (sep : α) : List (List α) → List α
  | [] => []
  | [s] => s
  | s :: rest => s ++ sep :: joinSep sep rest

/-- os.path.basename for the slash-separated relative paths used here. -/
def basename (s : String) : String := ⟨(splitSep '/' s.data).getLastD []⟩

/-- os.path.dirname for the slash-separated relative (non-absolute) paths used here. -/
def dirname (s : String) : String := ⟨joinSep '/' ((splitSep '/' s.data).dropLast)⟩

/-! ## Entry-point pattern (url_parser.MAIN_RE and staging.has_main_function) -/

/-- A regex word character (ASCII fragment of \w, which is what C sources use). -/
def isWordChar (c : Char) : Bool := c.isAlpha || c.isDigit || c = '_'

/-- Match the tail of MAIN_RE after the literal "int": at least one whitespace,
the literal "main", optional whitespace, and an opening parenthesis. -/
def matchMainTail (l : List Char) : Bool :=
  match l with
  | c :: rest =>
    if c.isWhitespace then
      match rest.dropWhile Char.isWhitespace with
      | 'm' :: 'a' :: 'i' :: 'n' :: rest2 =>
        match rest2.dropWhile Char.isWhitespace with
        | '(' :: _ => true
        | _ => false
      | _ => false
    else false
  | [] => false

/-- Match MAIN_RE at the current position (the literal "int" then its tail). -/
def matchIntMainAt (l : List Char) : Bool :=
  match l with
  | 'i' :: 'n' :: 't' :: rest => matchMainTail rest
  | _ => false

/-- Scan for MAIN_RE at every position, tracking whether the previous character
is a word character (for the leading word boundary of \bint). -/
def hasMainAux : List Char → Bool → Bool
  | [], _ => false
  | c :: rest, prevWord =>
    ((!prevWord) && matchIntMainAt (c :: rest)) || hasMainAux rest (isWordChar c)

/-- staging.has_main_function: search the text for MAIN_RE = \bint\s+main\s*\( . -/
def has_main_function (s : String) : Bool := hasMainAux s.data false

/-! ## Tree filtering and entry-point disambiguation (staging.py) -/

/-- One entry of the recursive git tree listing. -/
structure TreeEnt where
  type : String
  path : String
deriving DecidableEq

/-- staging.filter_c_h_paths: keep blob paths under the optional scope whose
lowercased name ends in .c or .h.  A scope of none or "" (both falsy in
Python) means no scope restriction. -/
def filter_c_h_paths (tree : List TreeEnt) (scope? : Option String) : List String :=
  (tree.filter (fun ent =>
    ent.type = "blob" &&
    (match scope? with
     | none => true
     | some sp => sp = "" || ent.path = sp || startsWithL ent.path (rstripSlashes sp ++ "/")) &&
    (endsWithLower ent.path ".c" || endsWithLower ent.path ".h"))).map (fun ent => ent.path)

/-- The .c staged paths inside the (already stripped) scope. -/
def scoped_c_paths (sp : String) (staged : List String) : List String :=
  staged.filter (fun p =>
    endsWithLower p ".c" && (sp = "" || p = sp || startsWithL p (sp ++ "/")))

/-- The scoped .c files whose on-disk content (fs maps a path relative to the
student root to its readable content; none models a missing/unreadable file,
which the code skips) matches MAIN_RE. -/
def main_candidates (fs : String → Option String) (sp : String) (staged : List String) :
    List String :=
  (scoped_c_paths sp staged).filter (fun rel =>
    match fs rel with
    | some txt => has_main_function txt
    | none => false)

/-- The conventional candidate "<scope>/main.c" (or "main.c" at the root). -/
def mainCandidateRel (sp : String) : String := if sp = "" then "main.c" else sp ++ "/main.c"

/-- staging.pick_main_from_staged: prefer an existing <scope>/main.c on disk,
else the unique scoped .c whose content contains main(), else None. -/
def pick_main_from_staged (fs : String → Option String) (scopeArg : String)
    (staged : List String) : Option String :=
  let sp := stripSlashes scopeArg
  if (fs (mainCandidateRel sp)).isSome then some (mainCandidateRel sp)
  else if (main_candidates fs sp staged).length = 1 then (main_candidates fs sp staged).head?
  else none

/-! ## Staging one student (service.FetchService._stage_student) -/

/-- get_contents_meta result for the representative path. -/
structure RepContentMeta where
  type : String
  path : String
  name : String
deriving DecidableEq

/-- url_parser.RepoRef / models.RepoRef. -/
structure RepoRef where
  owner : String
  repo : String
  branch : Option String
  path : String
deriving DecidableEq

/-- The fields of models.Config that _stage_student consults. -/
structure FetchConfig where
  rename_to : String := "main.c"
  keep_original : Bool := false
  scope : String := "repo"
  preserve_subdirs : Bool := true
  force_rename : Bool := false
deriving DecidableEq

/-- Environment of one _stage_student call (the GitHub results at the resolved
commit, and the files already present under the student root before the call).
An Except.error models a raised exception, carrying its message. -/
structure StageEnv where
  rep_meta : Option RepContentMeta
  fetch_raw : String → Except String String
  tree : Except String (List TreeEnt)
  fs0 : String → Option String

/-- staging.record_failure: the sidecar patch it merge-writes (a falsy detail
is omitted, a long one is truncated to 500 characters). -/
def record_failure_patch (url : String) (st : Status) (reason : String)
    (detail : Option String) : List (String × String) :=
  [("submitted_url", url), ("status", statusValue st), ("failure_reason", reason)] ++
    (match detail with
     | some d => if d = "" then [] else [("detail", d.take 500)]
     | none => [])

/-- What the representative-handling step of _stage_student produced. -/
structure RepOutcome where
  rep_saved : Bool
  skip_paths : List String
  files : List (String × String)
  hints : List String
  meta : List (List (String × String))
  failures : List Status
deriving DecidableEq

/-- The empty representative outcome (representative absent or not a file). -/
def emptyRep : RepOutcome :=
  { rep_saved := false, skip_paths := [], files := [], hints := [], meta := [], failures := [] }

/-- The representative-file step of _stage_student: a .c representative without
force_rename only records a hint; otherwise its bytes are fetched and saved
under rename_to (with sidecar keys incl. saved_as), optionally keeping the
original name, and a fetch failure records representative_fetch_failed. -/
def handle_representative (cfg : FetchConfig) (env : StageEnv) (url : String) : RepOutcome :=
  match env.rep_meta with
  | some m =>
    if m.type = "file" then
      let rep_rel := m.path
      let rep_base := basename rep_rel
      let rep_is_c := endsWithLower rep_base ".c"
      if rep_is_c && !cfg.force_rename then
        { emptyRep with hints := [rep_rel] }
      else
        match env.fetch_raw rep_rel with
        | .ok data =>
          let existsOrig := (env.fs0 rep_base).isSome || rep_base = cfg.rename_to
          { rep_saved := true,
            skip_paths := if rep_is_c && cfg.force_rename then [rep_rel] else [],
            files := (cfg.rename_to, data) ::
              (if cfg.keep_original && !rep_is_c && !existsOrig then [(rep_base, data)] else []),
            hints := [cfg.rename_to],
            meta := [[("submitted_url", url), ("submitted_kind", "non_c_file"),
                      ("submitted_path", rep_rel), ("saved_as", cfg.rename_to)]],
            failures := [] }
        | .error e =>
          { emptyRep with
            meta := [record_failure_patch url .representative_fetch_failed
                      ("Failed to fetch representative path " ++ rep_rel) (some e)],
            failures := [.representative_fetch_failed] }
    else emptyRep
  | none => emptyRep

/-- The directory-scope decision of _stage_student: the stripped reference path
when the representative is a directory, "" (repo root) when there is no
representative metadata and the reference path is empty, none otherwise. -/
def dir_scope_of (env : StageEnv) (r : RepoRef) : Option String :=
  match env.rep_meta with
  | some m => if m.type = "dir" then some (stripSlashes r.path) else none
  | none => if r.path = "" then some "" else none

/-- The scope passed to filter_c_h_paths: the directory scope when present,
else the reference path's directory when cfg.scope = "dir", else no scope. -/
def stage_scope (cfg : FetchConfig) (env : StageEnv) (r : RepoRef) : Option String :=
  match dir_scope_of env r with
  | some dsp => some dsp
  | none => if cfg.scope = "dir" then some (if r.path = "" then "" else dirname r.path) else none

/-- The enumerated .c/.h paths of _stage_student (empty when list_tree raised). -/
def stage_paths (cfg : FetchConfig) (env : StageEnv) (r : RepoRef) : List String :=
  match env.tree with
  | .ok tree => filter_c_h_paths tree (stage_scope cfg env r)
  | .error _ => []

/-- The per-path staging loop of _stage_student: skip paths in the skip set,
skip (log-and-continue) paths whose fetch raises, and write the rest at their
repository-relative path or flattened basename. -/
def stage_files (cfg : FetchConfig) (fetch : String → Except String String)
    (skip : List String) : List String → List (String × String)
  | [] => []
  | p :: rest =>
    if skip.contains p then stage_files cfg fetch skip rest
    else
      match fetch p with
      | .ok data =>
        (if cfg.preserve_subdirs then p else basename p, data) :: stage_files cfg fetch skip rest
      | .error _ => stage_files cfg fetch skip rest

/-- Apply one safe_write to the modelled filesystem. -/
def fs_write (fs : String → Option String) (w : String × String) : String → Option String :=
  fun p => if p = w.1 then some w.2 else fs p

/-- Apply a sequence of safe_writes (later writes win). -/
def fs_after (fs : String → Option String) (writes : List (String × String)) :
    String → Option String :=
  writes.foldl fs_write fs

/-- The student-root filesystem at the moment pick_main_from_staged runs:
the initial files, the representative writes, then the staged writes. -/
def stage_fs (cfg : FetchConfig) (env : StageEnv) (url : String) (r : RepoRef) :
    String → Option String :=
  fs_after env.fs0 ((handle_representative cfg env url).files ++
    stage_files cfg env.fetch_raw (handle_representative cfg env url).skip_paths
      (stage_paths cfg env r))

/-- Everything observable that one _stage_student call did. -/
structure StageResult where
  files : List (String × String)
  hints : List String
  meta : List (List (String × String))
  failures : List Status
  ok : Bool
deriving DecidableEq

/-- service.FetchService._stage_student for one student at a resolved commit:
representative handling, tree enumeration (tree_list_failed degrades to zero
paths), the per-path staging loop, the directory-scope entry-point pick
(auto_picked_main on success, auto_pick_main_failed otherwise), and the final
no_sources_found check deciding the boolean result. -/
def stage_student (cfg : FetchConfig) (env : StageEnv) (url : String) (r : RepoRef)
    (sha : String) : StageResult :=
  let rep := handle_representative cfg env url
  let treeMeta : List (List (String × String)) :=
    match env.tree with
    | .ok _ => []
    | .error e =>
      [record_failure_patch url .tree_list_failed "Failed to enumerate repository tree" (some e)]
  let treeFail : List Status :=
    match env.tree with
    | .ok _ => []
    | .error _ => [.tree_list_failed]
  let paths := stage_paths cfg env r
  let staged := stage_files cfg env.fetch_raw rep.skip_paths paths
  let (pickHints, pickMeta, pickFail) :
      List String × List (List (String × String)) × List Status :=
    match dir_scope_of env r with
    | some scope =>
      match pick_main_from_staged (stage_fs cfg env url r) scope paths with
      | some picked =>
        ([picked],
         [[("submitted_url", url),
           ("submitted_kind",
            if env.rep_meta.map (fun m => m.type) = some "dir" then "dir" else "repo"),
           ("auto_picked_main", picked)]],
         [])
      | none =>
        ([], [record_failure_patch url .auto_pick_main_failed
               "Could not determine a unique main() under directory scope" none],
         [.auto_pick_main_failed])
    | none => ([], [], [])
  let (lastMeta, lastFail, okRes) : List (List (String × String)) × List Status × Bool :=
    if !rep.rep_saved && paths.isEmpty then
      ([record_failure_patch url .no_sources_found
         ("No representative file or .c/.h found at commit " ++ sha) none],
       [.no_sources_found], false)
    else ([], [], true)
  { files := rep.files ++ staged,
    hints := rep.hints ++ pickHints,
    meta := rep.meta ++ treeMeta ++ pickMeta ++ lastMeta,
    failures := rep.failures ++ treeFail ++ pickFail ++ lastFail,
    ok := okRes }

/-- The merged sidecar object at the end of a run that started with no sidecar
file: the successive merge-writes folded over the empty object. -/
def final_meta (res : StageResult) : List (String × String) :=
  res.meta.foldl dictUpdate []

/-! ## Per-segment percent-encoding (url_parser.encode_path_preserving_segments)

Modelled at the byte level: a path is a list of byte values.  quote/unquote are
urllib.parse.quote(seg, safe="") and urllib.parse.unquote, which for byte
strings are exactly the maps below. -/

/-- The bytes urllib.parse.quote never escapes: ASCII letters, digits, and
_ . - ~ (quote is called with safe=""). -/
def isAlwaysSafe (b : Nat) : Bool :=
  (48 ≤ b && b ≤ 57) || (65 ≤ b && b ≤ 90) || (97 ≤ b && b ≤ 122) ||
    b = 95 || b = 46 || b = 45 || b = 126

/-- The value of a hex-digit byte, if it is one. -/
def hexVal (b : Nat) : Option Nat :=
  if 48 ≤ b && b ≤ 57 then some (b - 48)
  else if 65 ≤ b && b ≤ 70 then some (b - 55)
  else if 97 ≤ b && b ≤ 102 then some (b - 87)
  else none

/-- The upper-case hex digit byte for a value below 16. -/
def hexDigitUpper (n : Nat) : Nat := if n < 10 then 48 + n else 55 + n

/-- urllib.parse.quote(·, safe="") on bytes: keep always-safe bytes, escape
every other byte as %XX with upper-case hex. -/
def quoteBytes (bs : List Nat) : List Nat :=
  bs.flatMap (fun b =>
    if isAlwaysSafe b then [b] else [37, hexDigitUpper (b / 16), hexDigitUpper (b % 16)])

/-- urllib.parse.unquote on bytes: decode every % followed by two hex digits,
keep everything else (including a % without valid hex digits) literally. -/
def unquoteBytes : List Nat → List Nat
  | [] => []
  | 37 :: h1 :: h2 :: rest =>
    match hexVal h1, hexVal h2 with
    | some a, some v => (16 * a + v) :: unquoteBytes rest
    | _, _ => 37 :: unquoteBytes (h1 :: h2 :: rest)
  | b :: rest => b :: unquoteBytes rest

/-- url_parser.encode_path_preserving_segments: split on /, decode then
re-encode each segment, and re-join with /. -/
def encode_path_preserving_segments (path : List Nat) : List Nat :=
  joinSep 47 ((splitSep 47 path).map (fun seg => quoteBytes (unquoteBytes seg)))

/-! ## URL parsing (url_parser.parse_repo_url)

The parser is modelled on lists of characters.  unicodedata NFKC normalization
is modelled restricted to the full-width ASCII-variant block U+FF01..U+FF5E (the
look-alike characters the specification is about), on which NFKC is exactly the
character-wise map to ASCII.  urllib.parse.urlsplit/urlunsplit are modelled for
the scheme://netloc/path[?query][#fragment] shapes they handle. -/

/-- NFKC on one character, restricted to the full-width ASCII-variant block. -/
def fullwidthToAscii (c : Char) : Char :=
  if 0xFF01 ≤ c.toNat ∧ c.toNat ≤ 0xFF5E then Char.ofNat (c.toNat - 0xFEE0) else c

/-- url_parser.nfkc (unicodedata.normalize("NFKC", ·)), restricted as above. -/
def nfkcL (l : List Char) : List Char := l.map fullwidthToAscii

/-- str.strip(): drop whitespace from both ends. -/
def pyStripL (l : List Char) : List Char :=
  ((l.dropWhile Char.isWhitespace).reverse.dropWhile Char.isWhitespace).reverse

/-- The characters urlsplit allows in a scheme. -/
def isSchemeChar (c : Char) : Bool := c.isAlpha || c.isDigit || c = '+' || c = '-' || c = '.'

/-- urlsplit's scheme detection: everything before the first colon, provided it
is nonempty, starts with a letter and uses only scheme characters; the scheme
is lowercased.  Returns (scheme, remainder); no scheme gives ([], input). -/
def splitScheme (l : List Char) : List Char × List Char :=
  let pre := l.takeWhile (fun c => c ≠ ':')
  if pre.length < l.length && !pre.isEmpty && (pre.headD ' ').isAlpha && pre.all isSchemeChar
  then (toLowerL pre, l.drop (pre.length + 1))
  else ([], l)

/-- urlsplit's netloc: after a leading //, everything up to /, ? or #. -/
def splitNetloc (l : List Char) : List Char × List Char :=
  match l with
  | '/' :: '/' :: rest =>
    let n := rest.takeWhile (fun c => c ≠ '/' && c ≠ '?' && c ≠ '#')
    (n, rest.drop n.length)
  | _ => ([], l)

/-- s.split(sep, 1): (before, after) at the first occurrence, (s, []) if absent. -/
def splitOnceL (sep : Char) (l : List Char) : List Char × List Char :=
  let pre := l.takeWhile (fun c => c ≠ sep)
  if pre.length < l.length then (pre, l.drop (pre.length + 1)) else (l, [])

/-- The components urlsplit returns. -/
structure SplitUrl where
  scheme : List Char
  netloc : List Char
  path : List Char
  query : List Char
  fragment : List Char

/-- urllib.parse.urlsplit for the URL shapes this parser feeds it. -/
def urlsplitL (l : List Char) : SplitUrl :=
  let s1 := splitScheme l
  let s2 := splitNetloc s1.2
  let s3 := splitOnceL '#' s2.2
  let s4 := splitOnceL '?' s3.1
  { scheme := s1.1, netloc := s2.1, path := s4.1, query := s4.2, fragment := s3.2 }

/-- urllib.parse.urlunsplit((scheme, netloc, path, "", "")). -/
def urlunsplitL (scheme netloc path : List Char) : List Char :=
  let url :=
    if !netloc.isEmpty || isPrefixL ['/', '/'] path then
      ['/', '/'] ++ netloc ++ (if !path.isEmpty && !(isPrefixL ['/'] path) then '/' :: path else path)
    else path
  if !scheme.isEmpty then scheme ++ ':' :: url else url

/-- urllib.parse.unquote modelled codepoint-wise via the byte-level model (a
percent-escape decodes to the character of its byte value; the claims proved
here never depend on multi-byte UTF-8 percent sequences). -/
def unquotePy (s : String) : String :=
  ⟨(unquoteBytes (s.data.map Char.toNat)).map Char.ofNat⟩

/-- Drop a literal prefix, comparing case-insensitively (the regexes carry
re.IGNORECASE); the pattern itself is given lowercase. -/
def dropPrefixCI (p l : List Char) : Option (List Char) :=
  if toLowerL (l.take p.length) = p then some (l.drop p.length) else none

/-- Strip the ^https?:// of a given (lowercase) host, with the following /. -/
def dropHostOf (host : List Char) (l : List Char) : Option (List Char) :=
  match dropPrefixCI ("https://".data ++ host ++ ['/']) l with
  | some rest => some rest
  | none => dropPrefixCI ("http://".data ++ host ++ ['/']) l

/-- url_parser.BLOB_RE: ^https?://github.com/owner/repo/blob/branch/path$ with
the matched path percent-decoded. -/
def matchBlob (l : List Char) : Option RepoRef :=
  match dropHostOf "github.com".data l with
  | none => none
  | some rest =>
    match splitSep '/' rest with
    | owner :: repo :: marker :: branch :: p0 :: ps =>
      let path := joinSep '/' (p0 :: ps)
      if !owner.isEmpty && !repo.isEmpty && toLowerL marker = "blob".data &&
          !branch.isEmpty && !path.isEmpty
      then some ⟨⟨owner⟩, ⟨repo⟩, some ⟨branch⟩, unquotePy ⟨path⟩⟩
      else none
    | _ => none

/-- url_parser.RAW_RE: ^https?://raw.githubusercontent.com/owner/repo/branch/path$. -/
def matchRaw (l : List Char) : Option RepoRef :=
  match dropHostOf "raw.githubusercontent.com".data l with
  | none => none
  | some rest =>
    match splitSep '/' rest with
    | owner :: repo :: branch :: p0 :: ps =>
      let path := joinSep '/' (p0 :: ps)
      if !owner.isEmpty && !repo.isEmpty && !branch.isEmpty && !path.isEmpty
      then some ⟨⟨owner⟩, ⟨repo⟩, some ⟨branch⟩, unquotePy ⟨path⟩⟩
      else none
    | _ => none

/-- url_parser.TREE_RE: ^https?://github.com/owner/repo/tree/branch(/path?)?$. -/
def matchTree (l : List Char) : Option RepoRef :=
  match dropHostOf "github.com".data l with
  | none => none
  | some rest =>
    match splitSep '/' rest with
    | [owner, repo, marker, branch] =>
      if !owner.isEmpty && !repo.isEmpty && toLowerL marker = "tree".data && !branch.isEmpty
      then some ⟨⟨owner⟩, ⟨repo⟩, some ⟨branch⟩, unquotePy ""⟩
      else none
    | owner :: repo :: marker :: branch :: p0 :: ps =>
      if !owner.isEmpty && !repo.isEmpty && toLowerL marker = "tree".data && !branch.isEmpty
      then some ⟨⟨owner⟩, ⟨repo⟩, some ⟨branch⟩, unquotePy ⟨joinSep '/' (p0 :: ps)⟩⟩
      else none
    | _ => none

/-- url_parser.REPO_RE: ^https?://github.com/owner/repo/?$. -/
def matchRepo (l : List Char) : Option RepoRef :=
  match dropHostOf "github.com".data l with
  | none => none
  | some rest =>
    match splitSep '/' rest with
    | [owner, repo] =>
      if !owner.isEmpty && !repo.isEmpty then some ⟨⟨owner⟩, ⟨repo⟩, none, ""⟩ else none
    | [owner, repo, t] =>
      if !owner.isEmpty && !repo.isEmpty && t.isEmpty then some ⟨⟨owner⟩, ⟨repo⟩, none, ""⟩
      else none
    | _ => none

/-- Substring test ("github.com" in clean_url). -/
def containsSub (needle : List Char) : List Char → Bool
  | [] => needle.isEmpty
  | c :: rest => isPrefixL needle (c :: rest) || containsSub needle rest

/-- parse_repo_url after the git@ / schemeless rewriting: split the URL,
lowercase scheme and host (folding www.github.com into github.com), rebuild it
without query/fragment, strip a .git suffix, and try the four shapes in order;
a non-match is a ValueError distinguishing recognized hosts. -/
def parse_after_rewrite (l : List Char) : Except String RepoRef :=
  let parts := urlsplitL l
  let scheme := toLowerL parts.scheme
  let netloc :=
    if toLowerL parts.netloc = "www.github.com".data then "github.com".data
    else toLowerL parts.netloc
  let clean0 := urlunsplitL scheme netloc parts.path
  let clean := if isSuffixL ".git".data clean0 then clean0.take (clean0.length - 4) else clean0
  match matchBlob clean with
  | some r => .ok r
  | none =>
  match matchRaw clean with
  | some r => .ok r
  | none =>
  match matchTree clean with
  | some r => .ok r
  | none =>
  match matchRepo clean with
  | some r => .ok r
  | none =>
    if containsSub "github.com".data clean || containsSub "raw.githubusercontent.com".data clean
    then .error ("Unsupported GitHub URL shape: " ++ ⟨l⟩)
    else .error ("Unrecognized GitHub URL: " ++ ⟨l⟩)

/-- The git@ / schemeless rewriting of parse_repo_url, then the rest. -/
def parse_core (l0 : List Char) : Except String RepoRef :=
  let l :=
    if isPrefixL "git@github.com:".data l0 then
      let or0 := l0.drop 15
      let or1 := if isSuffixL ".git".data or0 then or0.take (or0.length - 4) else or0
      "https://github.com/".data ++ or1
    else if (splitScheme l0).1.isEmpty then
      let lower := toLowerL l0
      if isPrefixL "www.github.com/".data lower then "https://".data ++ l0.drop 4
      else if isPrefixL "github.com/".data lower ||
          isPrefixL "raw.githubusercontent.com/".data lower then
        "https://".data ++ l0
      else l0
    else l0
  parse_after_rewrite l

/-- url_parser.parse_repo_url: NFKC-normalize, strip, rewrite, match. -/
def parse_repo_url (url : String) : Except String RepoRef :=
  parse_core (pyStripL (nfkcL url.data))

/-! ## The four canonical URL shapes and the corruptions of claim C8 -/

/-- Canonical file-with-branch (blob) URL. -/
def blobUrl (o r b p : String) : String :=
  "https://github.com/" ++ o ++ "/" ++ r ++ "/blob/" ++ b ++ "/" ++ p

/-- Canonical raw-host file URL. -/
def rawUrl (o r b p : String) : String :=
  "https://raw.githubusercontent.com/" ++ o ++ "/" ++ r ++ "/" ++ b ++ "/" ++ p

/-- Canonical directory/tree URL with branch and sub-path. -/
def treeUrl (o r b p : String) : String :=
  "https://github.com/" ++ o ++ "/" ++ r ++ "/tree/" ++ b ++ "/" ++ p

/-- Canonical bare repository root URL. -/
def repoUrl (o r : String) : String :=
  "https://github.com/" ++ o ++ "/" ++ r

/-- Full-width look-alike corruption of one character (the inverse of NFKC on
the full-width block): every printable ASCII character becomes its full-width
variant. -/
def asciiToFullwidth (c : Char) : Char :=
  if 0x21 ≤ c.toNat ∧ c.toNat ≤ 0x7E then Char.ofNat (c.toNat + 0xFEE0) else c

/-- Corrupt a URL with full-width look-alike characters throughout. -/
def fullwidthify (s : String) : String := ⟨s.data.map asciiToFullwidth⟩

/-- Remove the scheme of a canonical https URL. -/
def dropHttpsScheme (s : String) : String :=
  if startsWithL s "https://" then ⟨s.data.drop 8⟩ else s

/-- Characters allowed in owner/repo/branch components of the claim-C8 shapes:
printable ASCII that is not a separator the parser is sensitive to. -/
def urlSafeSeg (c : Char) : Bool :=
  0x21 ≤ c.toNat && c.toNat ≤ 0x7E && c ≠ ':' && c ≠ '/' && c ≠ '?' && c ≠ '#'

/-- Characters allowed in path components of the claim-C8 shapes (slashes are
allowed inside a path). -/
def urlSafePath (c : Char) : Bool :=
  0x21 ≤ c.toNat && c.toNat ≤ 0x7E && c ≠ ':' && c ≠ '?' && c ≠ '#'

/-! ## Concrete instances used by the witnesses -/

/-- Every attempt is rate-limited with no reset header. -/
def envAll429 : Nat → HttpResp × Int := fun _ => (⟨429, none⟩, 0)

/-- A 403 carrying a reset header 5 seconds ahead, then a 200. -/
def envReset : Nat → HttpResp × Int := fun a => if a = 1 then (⟨403, some 5⟩, 0) else (⟨200, none⟩, 6)

/-- Every attempt is a plain client error. -/
def envTeapot : Nat → HttpResp × Int := fun _ => (⟨404, none⟩, 0)

/-- Every attempt is a success-family status that is not literally 200. -/
def env201 : Nat → HttpResp × Int := fun _ => (⟨201, none⟩, 0)

/-- Default branch resolves, every head/commit lookup raises. -/
def env7 : ResolveEnv :=
  { default_branch := .ok "main",
    branch_head := fun _ => .error "boom",
    commit_pages := fun _ => .error "boom" }

/-- A two-page commit history, all commits after the cutoff 5. -/
def envPages : ResolveEnv :=
  { default_branch := .ok "main",
    branch_head := fun _ => .ok "head",
    commit_pages := fun _ => .ok [[⟨"c1", 100⟩, ⟨"c2", 50⟩], [⟨"c3", 10⟩]] }

/-! ## Theorems -/

theorem lookupKey_append {V : Type} (d e : List (String × V)) (k : String) :
    lookupKey (d ++ e) k =
      match lookupKey d k with
      | some v => some v
      | none => lookupKey e k := by
  induction d with
  | nil => simp [lookupKey]
  | cons a rest ih =>
    obtain ⟨k', v⟩ := a
    by_cases h : k' = k <;> simp [lookupKey, h, ih]

theorem lookupKey_map_set {V : Type} (d : List (String × V)) (k : String) (v : V)
    (k' : String) (h : k' ≠ k) :
    lookupKey (d.map (fun p => if p.1 = k then (k, v) else p)) k' = lookupKey d k' := by
  induction d with
  | nil => rfl
  | cons a rest ih =>
    obtain ⟨k0, v0⟩ := a
    simp only [List.map_cons]
    by_cases h0 : k0 = k
    · rw [if_pos h0]
      simp only [lookupKey]
      rw [if_neg (fun hc : k = k' => h hc.symm),
        if_neg (fun hc : k0 = k' => h (h0.symm.trans hc).symm)]
      exact ih
    · rw [if_neg h0]
      simp only [lookupKey]
      by_cases h1 : k0 = k'
      · rw [if_pos h1, if_pos h1]
      · rw [if_neg h1, if_neg h1]
        exact ih

theorem lookupKey_of_not_key {V : Type} (d : List (String × V)) (k : String)
    (h : d.any (fun p => p.1 = k) = false) : lookupKey d k = none := by
  induction d with
  | nil => simp [lookupKey]
  | cons a rest ih =>
    obtain ⟨k0, v0⟩ := a
    simp only [List.any_cons, Bool.or_eq_false_iff] at h
    have hk0 : k0 ≠ k := by
      intro hc
      simp [hc] at h
    simp [lookupKey, hk0, ih h.2]

theorem lookupKey_map_set_hit {V : Type} (d : List (String × V)) (k : String) (v : V)
    (hany : d.any (fun p => p.1 = k) = true) :
    lookupKey (d.map (fun p => if p.1 = k then (k, v) else p)) k = some v := by
  induction d with
  | nil => simp at hany
  | cons a rest ih =>
    obtain ⟨k0, v0⟩ := a
    simp only [List.map_cons]
    by_cases h0 : k0 = k
    · rw [if_pos h0]
      simp [lookupKey]
    · rw [if_neg h0]
      simp only [lookupKey]
      rw [if_neg h0]
      apply ih
      simpa [h0] using hany

theorem lookupKey_setKey_self {V : Type} (d : List (String × V)) (k : String) (v : V) :
    lookupKey (setKey d k v) k = some v := by
  unfold setKey
  by_cases hany : d.any (fun p => p.1 = k) = true
  · simp only [hany, if_true]
    exact lookupKey_map_set_hit d k v hany
  · simp only [Bool.not_eq_true] at hany
    simp only [hany, Bool.false_eq_true, if_false]
    rw [lookupKey_append, lookupKey_of_not_key d k hany]
    simp [lookupKey]

theorem lookupKey_setKey_ne {V : Type} (d : List (String × V)) (k : String) (v : V)
    (k' : String) (h : k' ≠ k) : lookupKey (setKey d k v) k' = lookupKey d k' := by
  unfold setKey
  by_cases hany : d.any (fun p => p.1 = k) = true
  · simp only [hany, if_true]
    exact lookupKey_map_set d k v k' h
  · simp only [Bool.not_eq_true] at hany
    simp only [hany, Bool.false_eq_true, if_false]
    rw [lookupKey_append]
    cases hd : lookupKey d k' with
    | some w => rfl
    | none =>
      simp only [lookupKey]
      rw [if_neg (fun hc : k = k' => h hc.symm)]

theorem lookupKey_dictUpdate_notin {V : Type} (cur patch : List (String × V)) (k : String)
    (h : lookupKey patch k = none) : lookupKey (dictUpdate cur patch) k = lookupKey cur k := by
  induction patch generalizing cur with
  | nil => simp [dictUpdate]
  | cons a rest ih =>
    obtain ⟨k0, v0⟩ := a
    simp only [lookupKey] at h
    by_cases h0 : k0 = k
    · simp [h0] at h
    · simp only [h0, if_false] at h
      show lookupKey (dictUpdate (setKey cur k0 v0) rest) k = lookupKey cur k
      rw [ih (setKey cur k0 v0) h, lookupKey_setKey_ne cur k0 v0 k (fun hc => h0 hc.symm)]

theorem not_mem_keys_lookupKey {V : Type} (d : List (String × V)) (k : String)
    (h : k ∉ d.map Prod.fst) : lookupKey d k = none := by
  induction d with
  | nil => simp [lookupKey]
  | cons a rest ih =>
    obtain ⟨k0, v0⟩ := a
    simp only [List.map_cons, List.mem_cons] at h
    push_neg at h
    simp only [lookupKey]
    rw [if_neg (fun hc : k0 = k => h.1 hc.symm)]
    exact ih h.2

theorem lookupKey_dictUpdate_in {V : Type} (cur patch : List (String × V)) (k : String)
    (v : V) (hnd : (patch.map Prod.fst).Nodup) (h : lookupKey patch k = some v) :
    lookupKey (dictUpdate cur patch) k = some v := by
  induction patch generalizing cur with
  | nil => simp [lookupKey] at h
  | cons a rest ih =>
    obtain ⟨k0, v0⟩ := a
    simp only [List.map_cons, List.nodup_cons] at hnd
    simp only [lookupKey] at h
    by_cases h0 : k0 = k
    · subst h0
      simp only [if_true] at h
      obtain rfl : v0 = v := by simpa using h
      show lookupKey (dictUpdate (setKey cur k0 v0) rest) k0 = some v0
      rw [lookupKey_dictUpdate_notin (setKey cur k0 v0) rest k0
        (not_mem_keys_lookupKey rest k0 hnd.1)]
      exact lookupKey_setKey_self cur k0 v0
    · simp only [h0, if_false] at h
      exact ih (setKey cur k0 v0) hnd.2 h

/-- C6: the sidecar merge-write (write_json_merge) is a shallow merge: every
key of the patch ends with the patch's (later) value, every key absent from
the patch keeps its prior value unchanged, and hence a patch disjoint from the
prior content yields a file containing both key sets. -/
theorem C6_write_json_merge_shallow_merge {V : Type} (cur patch : List (String × V))
    (hnd : (patch.map Prod.fst).Nodup) :
    (∀ k v, lookupKey patch k = some v →
      lookupKey (write_json_merge (some cur) patch) k = some v) ∧
    (∀ k, lookupKey patch k = none →
      lookupKey (write_json_merge (some cur) patch) k = lookupKey cur k) ∧
    (∀ k, (lookupKey cur k).isSome ∨ (lookupKey patch k).isSome →
      (lookupKey (write_json_merge (some cur) patch) k).isSome) := by
  refine ⟨?_, ?_, ?_⟩
  · intro k v h
    exact lookupKey_dictUpdate_in cur patch k v hnd h
  · intro k h
    exact lookupKey_dictUpdate_notin cur patch k h
  · intro k h
    show (lookupKey (dictUpdate cur patch) k).isSome = true
    cases hp : lookupKey patch k with
    | some v =>
      rw [lookupKey_dictUpdate_in cur patch k v hnd hp]
      rfl
    | none =>
      rw [lookupKey_dictUpdate_notin cur patch k hp]
      rcases h with h | h
      · exact h
      · rw [hp] at h
        simp at h

/-- Witness for C6 at concrete dictionaries: overlapping key b takes the later
value, untouched key a keeps its prior value, disjoint key c is added. -/
theorem C6_witness :
    lookupKey (write_json_merge (some [("a", "1"), ("b", "2")]) [("b", "3"), ("c", "4")]) "b" =
      some "3" ∧
    lookupKey (write_json_merge (some [("a", "1"), ("b", "2")]) [("b", "3"), ("c", "4")]) "a" =
      lookupKey [("a", "1"), ("b", "2")] "a" ∧
    (lookupKey (write_json_merge (some [("a", "1"), ("b", "2")]) [("b", "3"), ("c", "4")]) "c").isSome :=
  ⟨(C6_write_json_merge_shallow_merge [("a", "1"), ("b", "2")] [("b", "3"), ("c", "4")]
      (by decide)).1 "b" "3" (by decide),
   (C6_write_json_merge_shallow_merge [("a", "1"), ("b", "2")] [("b", "3"), ("c", "4")]
      (by decide)).2.1 "a" (by decide),
   (C6_write_json_merge_shallow_merge [("a", "1"), ("b", "2")] [("b", "3"), ("c", "4")]
      (by decide)).2.2 "c" (Or.inr (by decide))⟩

theorem getLoop_retriable_step (env : Nat → HttpResp × Int) (a r b : Nat)
    (hs : (env a).1.status = 403 ∨ (env a).1.status = 429) :
    getLoop env a (r + 1) b =
      (rateLimitSleep (env a).1 (env a).2 b :: (getLoop env (a + 1) r (min (b * 2) 60)).1,
       (getLoop env (a + 1) r (min (b * 2) 60)).2) := by
  have h200 : ¬(env a).1.status = 200 := by
    rcases hs with h | h <;> simp [h]
  simp [getLoop, h200, hs]

theorem getLoop_fatal_step (env : Nat → HttpResp × Int) (a r b : Nat)
    (h200 : (env a).1.status ≠ 200) (h403 : (env a).1.status ≠ 403)
    (h429 : (env a).1.status ≠ 429) :
    getLoop env a (r + 1) b = ([], .fatalStatus a (env a).1.status) := by
  simp [getLoop, h200, h403, h429]

theorem getLoop_success_status (env : Nat → HttpResp × Int) (r : Nat) :
    ∀ a b a', (getLoop env a r b).2 = .success a' → (env a').1.status = 200 := by
  induction r with
  | zero =>
    intro a b a' h
    simp [getLoop] at h
  | succ r ih =>
    intro a b a' h
    by_cases h200 : (env a).1.status = 200
    · simp [getLoop, h200] at h
      exact h ▸ h200
    · by_cases hret : (env a).1.status = 403 ∨ (env a).1.status = 429
      · rw [getLoop_retriable_step env a r b hret] at h
        exact ih (a + 1) (min (b * 2) 60) a' h
      · push_neg at hret
        rw [getLoop_fatal_step env a r b h200 hret.1 hret.2] at h
        simp at h

/-- C3: the retry policy of GitHubClient._get.  (i) a 403/429 attempt with a
numeric reset header sleeps max(0, reset - now + 1); (ii) one without the
header sleeps the current backoff; (iii) a 403/429 attempt retries after that
sleep with the backoff doubled and capped at 60; (iv) any other non-200 status
raises at that attempt with no sleep and no retry; (v) six all-rate-limited
attempts without a header sleep the exponential sequence starting at 1 and
then fail permanently (exhausted retries). -/
theorem C3_retry_policy :
    (∀ resp : HttpResp, ∀ now : Int, ∀ backoff reset : Nat,
      resp.rateLimitReset = some reset →
      rateLimitSleep resp now backoff = max 0 ((reset : Int) - now + 1)) ∧
    (∀ resp : HttpResp, ∀ now : Int, ∀ backoff : Nat,
      resp.rateLimitReset = none → rateLimitSleep resp now backoff = (backoff : Int)) ∧
    (∀ env : Nat → HttpResp × Int, ∀ a r b : Nat,
      ((env a).1.status = 403 ∨ (env a).1.status = 429) →
      getLoop env a (r + 1) b =
        (rateLimitSleep (env a).1 (env a).2 b :: (getLoop env (a + 1) r (min (b * 2) 60)).1,
         (getLoop env (a + 1) r (min (b * 2) 60)).2)) ∧
    (∀ env : Nat → HttpResp × Int, ∀ a r b : Nat,
      (env a).1.status ≠ 200 → (env a).1.status ≠ 403 → (env a).1.status ≠ 429 →
      getLoop env a (r + 1) b = ([], .fatalStatus a (env a).1.status)) ∧
    (∀ env : Nat → HttpResp × Int,
      (∀ a, 1 ≤ a → a ≤ 6 →
        ((env a).1.status = 403 ∨ (env a).1.status = 429) ∧ (env a).1.rateLimitReset = none) →
      httpGet env = ([1, 2, 4, 8, 16, 32], .exhausted)) := by
  refine ⟨?_, ?_, getLoop_retriable_step, getLoop_fatal_step, ?_⟩
  · intro resp now backoff reset h
    simp [rateLimitSleep, h]
  · intro resp now backoff h
    simp [rateLimitSleep, h]
  · intro env henv
    have sleep : ∀ a b, 1 ≤ a → a ≤ 6 →
        rateLimitSleep (env a).1 (env a).2 b = (b : Int) := by
      intro a b h1 h2
      simp [rateLimitSleep, (henv a h1 h2).2]
    have e1 := getLoop_retriable_step env 1 5 1 (henv 1 (by norm_num) (by norm_num)).1
    have e2 := getLoop_retriable_step env 2 4 2 (henv 2 (by norm_num) (by norm_num)).1
    have e3 := getLoop_retriable_step env 3 3 4 (henv 3 (by norm_num) (by norm_num)).1
    have e4 := getLoop_retriable_step env 4 2 8 (henv 4 (by norm_num) (by norm_num)).1
    have e5 := getLoop_retriable_step env 5 1 16 (henv 5 (by norm_num) (by norm_num)).1
    have e6 := getLoop_retriable_step env 6 0 32 (henv 6 (by norm_num) (by norm_num)).1
    rw [sleep 1 1 (by norm_num) (by norm_num)] at e1
    rw [sleep 2 2 (by norm_num) (by norm_num)] at e2
    rw [sleep 3 4 (by norm_num) (by norm_num)] at e3
    rw [sleep 4 8 (by norm_num) (by norm_num)] at e4
    rw [sleep 5 16 (by norm_num) (by norm_num)] at e5
    rw [sleep 6 32 (by norm_num) (by norm_num)] at e6
    norm_num at e1 e2 e3 e4 e5 e6
    show getLoop env 1 6 1 = ([1, 2, 4, 8, 16, 32], .exhausted)
    rw [show (6 : Nat) = 5 + 1 from rfl, e1, e2, e3, e4, e5, e6]
    simp [getLoop]

/-- Witness for C3 at concrete environments: the reset-header sleep, the
backoff sleep, a retried 429 step, an immediately fatal 404, and the full
exhausted run with sleeps 1, 2, 4, 8, 16, 32. -/
theorem C3_witness :
    rateLimitSleep ⟨403, some 5⟩ 0 1 = max 0 ((5 : Int) - 0 + 1) ∧
    rateLimitSleep ⟨429, none⟩ 0 4 = (4 : Int) ∧
    getLoop envAll429 1 3 1 =
      (rateLimitSleep (envAll429 1).1 (envAll429 1).2 1 :: (getLoop envAll429 2 2 (min (1 * 2) 60)).1,
       (getLoop envAll429 2 2 (min (1 * 2) 60)).2) ∧
    getLoop envTeapot 1 6 1 = ([], .fatalStatus 1 (envTeapot 1).1.status) ∧
    httpGet envAll429 = ([1, 2, 4, 8, 16, 32], .exhausted) :=
  ⟨C3_retry_policy.1 ⟨403, some 5⟩ 0 1 5 rfl,
   C3_retry_policy.2.1 ⟨429, none⟩ 0 4 rfl,
   C3_retry_policy.2.2.1 envAll429 1 2 1 (by decide),
   C3_retry_policy.2.2.2.1 envTeapot 1 5 1 (by decide) (by decide) (by decide),
   C3_retry_policy.2.2.2.2 envAll429 (fun a _ _ => by constructor <;> simp [envAll429])⟩

/-- C10: only a literal status 200 is ever returned as success (every success
outcome of the loop saw a 200 at its attempt), and every response whose status
is neither 200, 403 nor 429 — including 201/204/redirects — raises immediately
at that attempt, with no sleep and no retry. -/
theorem C10_only_200_succeeds :
    (∀ env : Nat → HttpResp × Int, ∀ a : Nat,
      (httpGet env).2 = .success a → (env a).1.status = 200) ∧
    (∀ env : Nat → HttpResp × Int, ∀ a r b : Nat,
      (env a).1.status ≠ 200 → (env a).1.status ≠ 403 → (env a).1.status ≠ 429 →
      getLoop env a (r + 1) b = ([], .fatalStatus a (env a).1.status)) :=
  ⟨fun env a h => getLoop_success_status env 6 1 1 a h, getLoop_fatal_step⟩

/-- Witness for C10: a 403-then-200 run succeeds only at the 200 attempt, and
a 201 (success-family but not 200) raises immediately. -/
theorem C10_witness :
    (envReset 2).1.status = 200 ∧
    getLoop env201 1 6 1 = ([], .fatalStatus 1 (env201 1).1.status) :=
  ⟨C10_only_200_succeeds.1 envReset 2 (by decide),
   C10_only_200_succeeds.2 env201 1 5 1 (by decide) (by decide) (by decide)⟩

theorem find?_append_match {α : Type} (l₁ l₂ : List α) (p : α → Bool) :
    (l₁ ++ l₂).find? p =
      match l₁.find? p with
      | some x => some x
      | none => l₂.find? p := by
  induction l₁ with
  | nil => simp
  | cons a rest ih =>
    by_cases h : p a = true
    · simp [List.find?, h]
    · simp only [Bool.not_eq_true] at h
      simp [List.find?, h, ih]

/-- C2: commit resolution against a cutoff.  (i) Over nonempty pages,
get_commit_before returns exactly the first commit of the newest-first
concatenated history whose UTC timestamp is ≤ the cutoff; (ii) in particular a
commit whose timestamp equals the cutoff is selected (inclusive comparison);
(iii) when no commit qualifies it returns none; and (iv) then _resolve_ref
returns .ok none (a non-exceptional value, not an error), run_for_map records
the student with status no_commit_before_limit and stages no files for them. -/
theorem C2_cutoff_resolution :
    (∀ pages : List (List CommitInfo), ∀ limit : Int, (∀ page ∈ pages, page ≠ []) →
      get_commit_before pages limit =
        (pages.flatten.find? (fun c => decide (c.ts ≤ limit))).map CommitInfo.sha) ∧
    (∀ c : CommitInfo, ∀ page : List CommitInfo, ∀ rest : List (List CommitInfo), ∀ limit : Int,
      c.ts = limit → get_commit_before ((c :: page) :: rest) limit = some c.sha) ∧
    (∀ pages : List (List CommitInfo), ∀ limit : Int, (∀ c ∈ pages.flatten, limit < c.ts) →
      get_commit_before pages limit = none) ∧
    (∀ env : ResolveEnv, ∀ branch : String, ∀ limit : Int,
      ∀ pages : List (List CommitInfo), ∀ stage : String → List (String × String),
      env.commit_pages branch = .ok pages → (∀ c ∈ pages.flatten, limit < c.ts) →
      resolve_ref env (some branch) (some limit) = .ok none ∧
      commit_resolution_step env (some branch) (some limit) = .failure .no_commit_before_limit ∧
      student_staged_files (commit_resolution_step env (some branch) (some limit)) stage = []) := by
  have hnone : ∀ pages : List (List CommitInfo), ∀ limit : Int,
      (∀ c ∈ pages.flatten, limit < c.ts) → get_commit_before pages limit = none := by
    intro pages limit h
    induction pages with
    | nil => rfl
    | cons page rest ih =>
      cases page with
      | nil => rfl
      | cons c0 cs =>
        rw [List.flatten_cons] at h
        have hfind : (c0 :: cs).find? (fun c => decide (c.ts ≤ limit)) = none := by
          rw [List.find?_eq_none]
          intro x hx
          simp only [decide_eq_true_eq, not_le]
          exact h x (List.mem_append_left _ hx)
        have ihr := ih (fun c hc => h c (List.mem_append_right _ hc))
        simp only [get_commit_before, hfind]
        exact ihr
  refine ⟨?_, ?_, hnone, ?_⟩
  · intro pages limit h
    induction pages with
    | nil => rfl
    | cons page rest ih =>
      have hpage : page ≠ [] := h page (by simp)
      cases page with
      | nil => exact absurd rfl hpage
      | cons c0 cs =>
        rw [List.flatten_cons, find?_append_match]
        cases hf : (c0 :: cs).find? (fun c => decide (c.ts ≤ limit)) with
        | some c =>
          simp only [get_commit_before, hf]
          rfl
        | none =>
          simp only [get_commit_before, hf]
          exact ih (fun p hp => h p (by simp [hp]))
  · intro c page rest limit hts
    simp [get_commit_before, List.find?, hts]
  · intro env branch limit pages stage hpg hall
    have hres : resolve_ref env (some branch) (some limit) = .ok none := by
      simp [resolve_ref, hpg, hnone pages limit hall]
    refine ⟨hres, ?_, ?_⟩
    · simp [commit_resolution_step, hres]
    · simp [student_staged_files, commit_resolution_step, hres]

/-- Witness for C2: a two-page history; the cutoff 50 selects c2 (equal
timestamp, inclusive), and the cutoff 5 qualifies no commit, yielding
.ok none, the no_commit_before_limit record, and zero staged files. -/
theorem C2_witness :
    get_commit_before [[⟨"c1", 100⟩, ⟨"c2", 50⟩], [⟨"c3", 10⟩]] 50 =
      (([[⟨"c1", 100⟩, ⟨"c2", 50⟩], [⟨"c3", 10⟩]] : List (List CommitInfo)).flatten.find?
        (fun c => decide (c.ts ≤ 50))).map CommitInfo.sha ∧
    get_commit_before [[(⟨"c2", 50⟩ : CommitInfo)]] 50 = some "c2" ∧
    get_commit_before [[⟨"c1", 100⟩, ⟨"c2", 50⟩], [⟨"c3", 10⟩]] 5 = none ∧
    (resolve_ref envPages (some "main") (some 5) = .ok none ∧
     commit_resolution_step envPages (some "main") (some 5) = .failure .no_commit_before_limit ∧
     student_staged_files (commit_resolution_step envPages (some "main") (some 5))
       (fun _ => [("x", "y")]) = []) :=
  ⟨C2_cutoff_resolution.1 _ 50 (by decide),
   C2_cutoff_resolution.2.1 ⟨"c2", 50⟩ [] [] 50 rfl,
   C2_cutoff_resolution.2.2.1 _ 5 (by decide),
   C2_cutoff_resolution.2.2.2 envPages "main" 5 _ _ rfl (by decide)⟩

/-- C7 as stated is false on the code: env7's default-branch lookup succeeds
(.ok "main") but its branch-head lookup then raises, and for a reference with
no branch the recorded status is default_branch_failed, not the head-lookup
status — run_for_map classifies the exception by ref.branch alone. -/
theorem C7_counterexample :
    env7.default_branch = .ok "main" ∧
    resolve_ref env7 none none = .error "boom" ∧
    commit_resolution_step env7 none none = .failure .default_branch_failed ∧
    Status.default_branch_failed ≠ Status.head_lookup_failed :=
  ⟨rfl, rfl, rfl, by decide⟩

/-- C7 (amended): run_for_map classifies commit-resolution failures by whether
the parsed reference names a branch, not by which call failed: every resolution
exception for a reference with a named branch is recorded as
head_lookup_failed, and every resolution exception for a branchless
(repo-root) reference — including a head or commit lookup failure after the
default branch resolved successfully — is recorded as default_branch_failed. -/
theorem C7_failure_classified_by_branch :
    (∀ env : ResolveEnv, ∀ b : String, ∀ limit? : Option Int, ∀ e : String,
      resolve_ref env (some b) limit? = .error e →
      commit_resolution_step env (some b) limit? = .failure .head_lookup_failed) ∧
    (∀ env : ResolveEnv, ∀ limit? : Option Int, ∀ e : String,
      resolve_ref env none limit? = .error e →
      commit_resolution_step env none limit? = .failure .default_branch_failed) := by
  constructor
  · intro env b limit? e h
    simp [commit_resolution_step, h]
  · intro env limit? e h
    simp [commit_resolution_step, h]

/-- Witness for the amended C7 at env7: a named branch's failure is
head_lookup_failed, a branchless reference's failure is default_branch_failed. -/
theorem C7_witness :
    commit_resolution_step env7 (some "dev") none = .failure .head_lookup_failed ∧
    commit_resolution_step env7 none none = .failure .default_branch_failed :=
  ⟨C7_failure_classified_by_branch.1 env7 "dev" none "boom" rfl,
   C7_failure_classified_by_branch.2 env7 none "boom" rfl⟩

/-- C1: entry-point disambiguation follows exactly three rules in priority
order.  (i) If <scope>/main.c exists on disk at the scope root it is picked,
whatever its content; (ii) otherwise, if the scoped staged .c files whose
content matches the entry-point pattern are exactly one file, that file is
picked; (iii) otherwise (zero or several matches) no entry point is returned
— the first match is never picked — and (iv) _stage_student then records the
student with status auto_pick_main_failed. -/
theorem C1_entry_point_rules :
    (∀ fs : String → Option String, ∀ scopeArg : String, ∀ staged : List String,
      (fs (mainCandidateRel (stripSlashes scopeArg))).isSome = true →
      pick_main_from_staged fs scopeArg staged =
        some (mainCandidateRel (stripSlashes scopeArg))) ∧
    (∀ fs : String → Option String, ∀ scopeArg : String, ∀ staged : List String, ∀ p : String,
      fs (mainCandidateRel (stripSlashes scopeArg)) = none →
      main_candidates fs (stripSlashes scopeArg) staged = [p] →
      pick_main_from_staged fs scopeArg staged = some p) ∧
    (∀ fs : String → Option String, ∀ scopeArg : String, ∀ staged : List String,
      fs (mainCandidateRel (stripSlashes scopeArg)) = none →
      (main_candidates fs (stripSlashes scopeArg) staged).length ≠ 1 →
      pick_main_from_staged fs scopeArg staged = none) ∧
    (∀ cfg : FetchConfig, ∀ env : StageEnv, ∀ url : String, ∀ r : RepoRef, ∀ sha scope : String,
      dir_scope_of env r = some scope →
      pick_main_from_staged (stage_fs cfg env url r) scope (stage_paths cfg env r) = none →
      Status.auto_pick_main_failed ∈ (stage_student cfg env url r sha).failures) := by
  refine ⟨?_, ?_, ?_, ?_⟩
  · intro fs scopeArg staged h
    simp [pick_main_from_staged, h]
  · intro fs scopeArg staged p h h2
    simp [pick_main_from_staged, h, h2]
  · intro fs scopeArg staged h h2
    simp [pick_main_from_staged, h, h2]
  · intro cfg env url r sha scope hd hp
    simp [stage_student, hd, hp]

/-- Witness for C1: an existing hw/main.c wins over a matching hw/a.c; with no
main.c a unique matching hw/a.c is picked; with two matching files nothing is
picked; and a student whose directory scope has no sources at all is recorded
with auto_pick_main_failed. -/
theorem C1_witness :
    pick_main_from_staged
      (fun p => if p = "hw/main.c" then some "" else
        if p = "hw/a.c" then some "int main()" else none) "hw" ["hw/a.c"] =
      some (mainCandidateRel (stripSlashes "hw")) ∧
    pick_main_from_staged
      (fun p => if p = "hw/a.c" then some "int main()" else none) "hw"
      ["hw/a.c", "hw/b.c"] = some "hw/a.c" ∧
    pick_main_from_staged
      (fun p => if p = "hw/a.c" || p = "hw/b.c" then some "int main()" else none) "hw"
      ["hw/a.c", "hw/b.c"] = none ∧
    Status.auto_pick_main_failed ∈
      (stage_student {} ⟨none, fun _ => .error "x", .ok [], fun _ => none⟩ "u"
        ⟨"o", "r", none, ""⟩ "sha").failures :=
  ⟨C1_entry_point_rules.1 _ "hw" ["hw/a.c"] (by decide),
   C1_entry_point_rules.2.1 _ "hw" ["hw/a.c", "hw/b.c"] "hw/a.c" (by decide) (by decide),
   C1_entry_point_rules.2.2.1 _ "hw" ["hw/a.c", "hw/b.c"] (by decide) (by decide),
   C1_entry_point_rules.2.2.2 {} ⟨none, fun _ => .error "x", .ok [], fun _ => none⟩ "u"
     ⟨"o", "r", none, ""⟩ "sha" "" rfl (by decide)⟩

theorem lookupKey_foldl_dictUpdate_none {V : Type} :
    ∀ (patches : List (List (String × V))) (init : List (String × V)) (k : String),
      lookupKey init k = none → (∀ patch ∈ patches, lookupKey patch k = none) →
      lookupKey (patches.foldl dictUpdate init) k = none := by
  intro patches
  induction patches with
  | nil =>
    intro init k h0 _
    simpa using h0
  | cons p rest ih =>
    intro init k h0 h
    simp only [List.foldl_cons]
    apply ih
    · rw [lookupKey_dictUpdate_notin init p k (h p (by simp))]
      exact h0
    · intro q hq
      exact h q (by simp [hq])

theorem lookupKey_record_failure_ne (url : String) (st : Status) (reason : String)
    (detail : Option String) (k : String) (h1 : k ≠ "submitted_url") (h2 : k ≠ "status")
    (h3 : k ≠ "failure_reason") (h4 : k ≠ "detail") :
    lookupKey (record_failure_patch url st reason detail) k = none := by
  unfold record_failure_patch
  rw [lookupKey_append]
  simp only [lookupKey]
  rw [if_neg (fun hc : "submitted_url" = k => h1 hc.symm),
    if_neg (fun hc : "status" = k => h2 hc.symm),
    if_neg (fun hc : "failure_reason" = k => h3 hc.symm)]
  cases detail with
  | none => rfl
  | some d =>
    by_cases hdd : d = ""
    · simp [hdd, lookupKey]
    · simp only [hdd, if_false]
      simp only [lookupKey]
      rw [if_neg (fun hc : "detail" = k => h4 hc.symm)]

theorem rep_empty_of_dir_scope (cfg : FetchConfig) (env : StageEnv) (url : String)
    (r : RepoRef) (scope : String) (hd : dir_scope_of env r = some scope) :
    handle_representative cfg env url = emptyRep := by
  cases hm : env.rep_meta with
  | none => simp [handle_representative, hm]
  | some m =>
    simp only [dir_scope_of, hm] at hd
    by_cases ht : m.type = "dir"
    · have hf : m.type ≠ "file" := by
        rw [ht]
        decide
      simp [handle_representative, hm, hf]
    · simp [ht] at hd

theorem rep_meta_no_auto (cfg : FetchConfig) (env : StageEnv) (url : String) :
    ∀ patch ∈ (handle_representative cfg env url).meta,
      lookupKey patch "auto_picked_main" = none := by
  intro patch hp
  cases hm : env.rep_meta with
  | none =>
    simp [handle_representative, hm, emptyRep] at hp
  | some m =>
    by_cases ht : m.type = "file"
    · by_cases hc : (endsWithLower (basename m.path) ".c" && !cfg.force_rename) = true
      · simp [handle_representative, hm, ht, hc, emptyRep] at hp
      · cases hfr : env.fetch_raw m.path with
        | ok data =>
          simp only [handle_representative, hm, ht, if_true, hc, Bool.false_eq_true, if_false,
            hfr] at hp
          simp only [List.mem_singleton] at hp
          subst hp
          simp [lookupKey]
        | error e =>
          simp only [handle_representative, hm, ht, if_true, hc, Bool.false_eq_true, if_false,
            hfr] at hp
          simp only [List.mem_singleton] at hp
          subst hp
          exact lookupKey_record_failure_ne _ _ _ _ _ (by decide) (by decide) (by decide)
            (by decide)
    · simp [handle_representative, hm, ht, emptyRep] at hp

theorem stage_student_meta (cfg : FetchConfig) (env : StageEnv) (url : String) (r : RepoRef)
    (sha : String) :
    (stage_student cfg env url r sha).meta =
      (handle_representative cfg env url).meta ++
      (match env.tree with
       | .ok _ => []
       | .error e => [record_failure_patch url .tree_list_failed
           "Failed to enumerate repository tree" (some e)]) ++
      (match dir_scope_of env r with
       | some scope =>
         match pick_main_from_staged (stage_fs cfg env url r) scope (stage_paths cfg env r) with
         | some picked =>
           [[("submitted_url", url),
             ("submitted_kind",
              if env.rep_meta.map (fun m => m.type) = some "dir" then "dir" else "repo"),
             ("auto_picked_main", picked)]]
         | none => [record_failure_patch url .auto_pick_main_failed
             "Could not determine a unique main() under directory scope" none]
       | none => []) ++
      (if !(handle_representative cfg env url).rep_saved && (stage_paths cfg env r).isEmpty
       then [record_failure_patch url .no_sources_found
           ("No representative file or .c/.h found at commit " ++ sha) none]
       else []) := by
  cases ht : env.tree with
  | ok t =>
    cases hd : dir_scope_of env r with
    | none =>
      by_cases hl : (!(handle_representative cfg env url).rep_saved &&
          (stage_paths cfg env r).isEmpty) = true <;>
        simp [stage_student, ht, hd, hl]
    | some scope =>
      cases hp : pick_main_from_staged (stage_fs cfg env url r) scope (stage_paths cfg env r) with
      | none =>
        by_cases hl : (!(handle_representative cfg env url).rep_saved &&
            (stage_paths cfg env r).isEmpty) = true <;>
          simp [stage_student, ht, hd, hp, hl]
      | some picked =>
        by_cases hl : (!(handle_representative cfg env url).rep_saved &&
            (stage_paths cfg env r).isEmpty) = true <;>
          simp [stage_student, ht, hd, hp, hl]
  | error e =>
    cases hd : dir_scope_of env r with
    | none =>
      by_cases hl : (!(handle_representative cfg env url).rep_saved &&
          (stage_paths cfg env r).isEmpty) = true <;>
        simp [stage_student, ht, hd, hl]
    | some scope =>
      cases hp : pick_main_from_staged (stage_fs cfg env url r) scope (stage_paths cfg env r) with
      | none =>
        by_cases hl : (!(handle_representative cfg env url).rep_saved &&
            (stage_paths cfg env r).isEmpty) = true <;>
          simp [stage_student, ht, hd, hp, hl]
      | some picked =>
        by_cases hl : (!(handle_representative cfg env url).rep_saved &&
            (stage_paths cfg env r).isEmpty) = true <;>
          simp [stage_student, ht, hd, hp, hl]

theorem stage_student_hints (cfg : FetchConfig) (env : StageEnv) (url : String) (r : RepoRef)
    (sha : String) :
    (stage_student cfg env url r sha).hints =
      (handle_representative cfg env url).hints ++
      (match dir_scope_of env r with
       | some scope =>
         match pick_main_from_staged (stage_fs cfg env url r) scope (stage_paths cfg env r) with
         | some picked => [picked]
         | none => []
       | none => []) := by
  cases ht : env.tree with
  | ok t =>
    cases hd : dir_scope_of env r with
    | none => simp [stage_student, ht, hd]
    | some scope =>
      cases hp : pick_main_from_staged (stage_fs cfg env url r) scope (stage_paths cfg env r) with
      | none => simp [stage_student, ht, hd, hp]
      | some picked => simp [stage_student, ht, hd, hp]
  | error e =>
    cases hd : dir_scope_of env r with
    | none => simp [stage_student, ht, hd]
    | some scope =>
      cases hp : pick_main_from_staged (stage_fs cfg env url r) scope (stage_paths cfg env r) with
      | none => simp [stage_student, ht, hd, hp]
      | some picked => simp [stage_student, ht, hd, hp]

theorem rep_hints_length (cfg : FetchConfig) (env : StageEnv) (url : String) :
    (handle_representative cfg env url).hints.length ≤ 1 := by
  cases hm : env.rep_meta with
  | none => simp [handle_representative, hm, emptyRep]
  | some m =>
    by_cases ht : m.type = "file"
    · by_cases hc : (endsWithLower (basename m.path) ".c" && !cfg.force_rename) = true
      · simp [handle_representative, hm, ht, hc, emptyRep]
      · cases hfr : env.fetch_raw m.path with
        | ok data => simp [handle_representative, hm, ht, hc, hfr]
        | error e => simp [handle_representative, hm, ht, hc, hfr, emptyRep]
    · simp [handle_representative, hm, ht, emptyRep]

theorem stage_meta_key_none (cfg : FetchConfig) (env : StageEnv) (url : String) (r : RepoRef)
    (sha : String) (k : String) (hk1 : k ≠ "submitted_url") (hk2 : k ≠ "status")
    (hk3 : k ≠ "failure_reason") (hk4 : k ≠ "detail")
    (hrep : ∀ patch ∈ (handle_representative cfg env url).meta, lookupKey patch k = none)
    (hpick : ∀ scope picked, dir_scope_of env r = some scope →
      pick_main_from_staged (stage_fs cfg env url r) scope (stage_paths cfg env r) =
        some picked →
      lookupKey [("submitted_url", url),
        ("submitted_kind",
         if env.rep_meta.map (fun m => m.type) = some "dir" then "dir" else "repo"),
        ("auto_picked_main", picked)] k = none) :
    lookupKey (final_meta (stage_student cfg env url r sha)) k = none := by
  refine lookupKey_foldl_dictUpdate_none _ [] k rfl ?_
  intro patch hp
  rw [stage_student_meta] at hp
  rcases List.mem_append.mp hp with hp | hp
  · rcases List.mem_append.mp hp with hp | hp
    · rcases List.mem_append.mp hp with hp | hp
      · exact hrep patch hp
      · split at hp
        · simp at hp
        · simp only [List.mem_singleton] at hp
          subst hp
          exact lookupKey_record_failure_ne _ _ _ _ _ hk1 hk2 hk3 hk4
    · split at hp
      · rename_i scope hd
        split at hp
        · rename_i picked hpk
          simp only [List.mem_singleton] at hp
          subst hp
          exact hpick scope picked hd hpk
        · simp only [List.mem_singleton] at hp
          subst hp
          exact lookupKey_record_failure_ne _ _ _ _ _ hk1 hk2 hk3 hk4
      · simp at hp
  · split at hp
    · simp only [List.mem_singleton] at hp
      subst hp
      exact lookupKey_record_failure_ne _ _ _ _ _ hk1 hk2 hk3 hk4
    · simp at hp

theorem stage_meta_saved_none (cfg : FetchConfig) (env : StageEnv) (url : String) (r : RepoRef)
    (sha : String) (hrep : handle_representative cfg env url = emptyRep) :
    lookupKey (final_meta (stage_student cfg env url r sha)) "saved_as" = none := by
  apply stage_meta_key_none cfg env url r sha "saved_as" (by decide) (by decide) (by decide)
    (by decide)
  · intro patch hp
    rw [hrep] at hp
    simp [emptyRep] at hp
  · intro scope picked _ _
    simp [lookupKey]

theorem stage_meta_auto_none (cfg : FetchConfig) (env : StageEnv) (url : String) (r : RepoRef)
    (sha : String)
    (h : ∀ scope, dir_scope_of env r = some scope →
      pick_main_from_staged (stage_fs cfg env url r) scope (stage_paths cfg env r) = none) :
    lookupKey (final_meta (stage_student cfg env url r sha)) "auto_picked_main" = none := by
  apply stage_meta_key_none cfg env url r sha "auto_picked_main" (by decide) (by decide)
    (by decide) (by decide)
  · exact rep_meta_no_auto cfg env url
  · intro scope picked hd hpk
    rw [h scope hd] at hpk
    cases hpk

/-- C4: at most one file is ever recorded as the representative entry point in
one _stage_student run starting from a fresh sidecar: (i) the merged sidecar
never holds both a saved_as and an auto_picked_main key; (ii) at most one
.main_filename hint is written; (iii) when the directory-scope pick cannot
determine an entry point, the student is recorded with auto_pick_main_failed
and no main record (neither saved_as nor auto_picked_main) is guessed. -/
theorem C4_at_most_one_main_record :
    (∀ cfg : FetchConfig, ∀ env : StageEnv, ∀ url : String, ∀ r : RepoRef, ∀ sha : String,
      ((lookupKey (final_meta (stage_student cfg env url r sha)) "saved_as").isSome &&
       (lookupKey (final_meta (stage_student cfg env url r sha)) "auto_picked_main").isSome) =
        false) ∧
    (∀ cfg : FetchConfig, ∀ env : StageEnv, ∀ url : String, ∀ r : RepoRef, ∀ sha : String,
      (stage_student cfg env url r sha).hints.length ≤ 1) ∧
    (∀ cfg : FetchConfig, ∀ env : StageEnv, ∀ url : String, ∀ r : RepoRef, ∀ sha scope : String,
      dir_scope_of env r = some scope →
      pick_main_from_staged (stage_fs cfg env url r) scope (stage_paths cfg env r) = none →
      Status.auto_pick_main_failed ∈ (stage_student cfg env url r sha).failures ∧
      lookupKey (final_meta (stage_student cfg env url r sha)) "saved_as" = none ∧
      lookupKey (final_meta (stage_student cfg env url r sha)) "auto_picked_main" = none) := by
  refine ⟨?_, ?_, ?_⟩
  · intro cfg env url r sha
    cases hd : dir_scope_of env r with
    | none =>
      rw [stage_meta_auto_none cfg env url r sha (fun scope hs => by rw [hd] at hs; cases hs)]
      simp
    | some scope =>
      rw [stage_meta_saved_none cfg env url r sha
        (rep_empty_of_dir_scope cfg env url r scope hd)]
      simp
  · intro cfg env url r sha
    rw [stage_student_hints]
    cases hd : dir_scope_of env r with
    | none =>
      simpa using rep_hints_length cfg env url
    | some scope =>
      rw [rep_empty_of_dir_scope cfg env url r scope hd]
      cases hpk : pick_main_from_staged (stage_fs cfg env url r) scope
          (stage_paths cfg env r) with
      | some picked => simp [emptyRep, hpk]
      | none => simp [emptyRep, hpk]
  · intro cfg env url r sha scope hd hp
    refine ⟨by simp [stage_student, hd, hp], ?_, ?_⟩
    · exact stage_meta_saved_none cfg env url r sha
        (rep_empty_of_dir_scope cfg env url r scope hd)
    · apply stage_meta_auto_none cfg env url r sha
      intro scope' hs
      rw [hd] at hs
      cases hs
      exact hp

/-- Witness for C4 at a concrete student whose directory scope has no staged
sources: the failure is recorded and no main record is in the merged sidecar. -/
theorem C4_witness :
    Status.auto_pick_main_failed ∈
      (stage_student {} ⟨none, fun _ => .error "x", .ok [], fun _ => none⟩ "u"
        ⟨"o", "r", none, ""⟩ "s").failures ∧
    lookupKey (final_meta (stage_student {} ⟨none, fun _ => .error "x", .ok [], fun _ => none⟩
      "u" ⟨"o", "r", none, ""⟩ "s")) "saved_as" = none ∧
    lookupKey (final_meta (stage_student {} ⟨none, fun _ => .error "x", .ok [], fun _ => none⟩
      "u" ⟨"o", "r", none, ""⟩ "s")) "auto_picked_main" = none :=
  C4_at_most_one_main_record.2.2 {} ⟨none, fun _ => .error "x", .ok [], fun _ => none⟩ "u"
    ⟨"o", "r", none, ""⟩ "s" "" rfl (by decide)

theorem stage_files_len (cfg : FetchConfig) (fetch : String → Except String String) :
    ∀ paths : List String, (stage_files cfg fetch [] paths).length =
      (paths.filter (fun p => (fetch p).isOk)).length := by
  intro paths
  induction paths with
  | nil => rfl
  | cons p rest ih =>
    cases hf : fetch p with
    | ok data => simp [stage_files, hf, List.filter, Except.isOk, Except.toBool, ih]
    | error e => simp [stage_files, hf, List.filter, Except.isOk, Except.toBool, ih]

theorem length_filter_not {α : Type} (l : List α) (p : α → Bool) :
    (l.filter p).length + (l.filter (fun a => !p a)).length = l.length := by
  induction l with
  | nil => rfl
  | cons a rest ih =>
    cases hp : p a <;> simp [List.filter, hp] <;> omega

theorem stage_student_files (cfg : FetchConfig) (env : StageEnv) (url : String) (r : RepoRef)
    (sha : String) :
    (stage_student cfg env url r sha).files =
      (handle_representative cfg env url).files ++
      stage_files cfg env.fetch_raw (handle_representative cfg env url).skip_paths
        (stage_paths cfg env r) := by
  cases ht : env.tree with
  | ok t =>
    cases hd : dir_scope_of env r with
    | none =>
      by_cases hl : (!(handle_representative cfg env url).rep_saved &&
          (stage_paths cfg env r).isEmpty) = true <;>
        simp [stage_student, ht, hd, hl]
    | some scope =>
      cases hp : pick_main_from_staged (stage_fs cfg env url r) scope (stage_paths cfg env r) with
      | none =>
        by_cases hl : (!(handle_representative cfg env url).rep_saved &&
            (stage_paths cfg env r).isEmpty) = true <;>
          simp [stage_student, ht, hd, hp, hl]
      | some picked =>
        by_cases hl : (!(handle_representative cfg env url).rep_saved &&
            (stage_paths cfg env r).isEmpty) = true <;>
          simp [stage_student, ht, hd, hp, hl]
  | error e =>
    cases hd : dir_scope_of env r with
    | none =>
      by_cases hl : (!(handle_representative cfg env url).rep_saved &&
          (stage_paths cfg env r).isEmpty) = true <;>
        simp [stage_student, ht, hd, hl]
    | some scope =>
      cases hp : pick_main_from_staged (stage_fs cfg env url r) scope (stage_paths cfg env r) with
      | none =>
        by_cases hl : (!(handle_representative cfg env url).rep_saved &&
            (stage_paths cfg env r).isEmpty) = true <;>
          simp [stage_student, ht, hd, hp, hl]
      | some picked =>
        by_cases hl : (!(handle_representative cfg env url).rep_saved &&
            (stage_paths cfg env r).isEmpty) = true <;>
          simp [stage_student, ht, hd, hp, hl]

theorem stage_student_ok_iff (cfg : FetchConfig) (env : StageEnv) (url : String) (r : RepoRef)
    (sha : String) :
    (stage_student cfg env url r sha).ok =
      !(!(handle_representative cfg env url).rep_saved && (stage_paths cfg env r).isEmpty) := by
  cases ht : env.tree with
  | ok t =>
    cases hd : dir_scope_of env r with
    | none =>
      by_cases hl : (!(handle_representative cfg env url).rep_saved &&
          (stage_paths cfg env r).isEmpty) = true <;>
        simp [stage_student, ht, hd, hl]
    | some scope =>
      cases hp : pick_main_from_staged (stage_fs cfg env url r) scope (stage_paths cfg env r) with
      | none =>
        by_cases hl : (!(handle_representative cfg env url).rep_saved &&
            (stage_paths cfg env r).isEmpty) = true <;>
          simp [stage_student, ht, hd, hp, hl]
      | some picked =>
        by_cases hl : (!(handle_representative cfg env url).rep_saved &&
            (stage_paths cfg env r).isEmpty) = true <;>
          simp [stage_student, ht, hd, hp, hl]
  | error e =>
    cases hd : dir_scope_of env r with
    | none =>
      by_cases hl : (!(handle_representative cfg env url).rep_saved &&
          (stage_paths cfg env r).isEmpty) = true <;>
        simp [stage_student, ht, hd, hl]
    | some scope =>
      cases hp : pick_main_from_staged (stage_fs cfg env url r) scope (stage_paths cfg env r) with
      | none =>
        by_cases hl : (!(handle_representative cfg env url).rep_saved &&
            (stage_paths cfg env r).isEmpty) = true <;>
          simp [stage_student, ht, hd, hp, hl]
      | some picked =>
        by_cases hl : (!(handle_representative cfg env url).rep_saved &&
            (stage_paths cfg env r).isEmpty) = true <;>
          simp [stage_student, ht, hd, hp, hl]

/-- C5: when the tree enumeration produced N paths (here with no
representative metadata, so nothing else is written) and exactly one path's
raw fetch raises, the failing path is skipped without aborting: N - 1 files
are written and the per-student result is still success (True). -/
theorem C5_single_fetch_failure (cfg : FetchConfig) (env : StageEnv) (url : String)
    (r : RepoRef) (sha : String) (hrep : env.rep_meta = none)
    (hfail : ((stage_paths cfg env r).filter (fun p => !(env.fetch_raw p).isOk)).length = 1) :
    (stage_student cfg env url r sha).files.length = (stage_paths cfg env r).length - 1 ∧
    (stage_student cfg env url r sha).ok = true := by
  have hre : handle_representative cfg env url = emptyRep := by
    simp [handle_representative, hrep]
  constructor
  · rw [stage_student_files, hre]
    simp only [emptyRep, List.nil_append]
    rw [stage_files_len]
    have hsplit := length_filter_not (stage_paths cfg env r)
      (fun p => (env.fetch_raw p).isOk)
    omega
  · rw [stage_student_ok_iff, hre]
    cases hpp : stage_paths cfg env r with
    | nil =>
      rw [hpp] at hfail
      simp at hfail
    | cons a rest => simp [emptyRep]

/-- Witness for C5: two enumerated files of which only b.c fails to fetch:
one file staged (2 - 1) and the student still staged successfully. -/
theorem C5_witness :
    (stage_student {}
      ⟨none, fun p => if p = "b.c" then .error "net" else .ok "x",
       .ok [⟨"blob", "a.c"⟩, ⟨"blob", "b.c"⟩], fun _ => none⟩
      "u" ⟨"o", "rp", none, ""⟩ "s").files.length =
      (stage_paths {}
        ⟨none, fun p => if p = "b.c" then .error "net" else .ok "x",
         .ok [⟨"blob", "a.c"⟩, ⟨"blob", "b.c"⟩], fun _ => none⟩
        ⟨"o", "rp", none, ""⟩).length - 1 ∧
    (stage_student {}
      ⟨none, fun p => if p = "b.c" then .error "net" else .ok "x",
       .ok [⟨"blob", "a.c"⟩, ⟨"blob", "b.c"⟩], fun _ => none⟩
      "u" ⟨"o", "rp", none, ""⟩ "s").ok = true :=
  C5_single_fetch_failure {}
    ⟨none, fun p => if p = "b.c" then .error "net" else .ok "x",
     .ok [⟨"blob", "a.c"⟩, ⟨"blob", "b.c"⟩], fun _ => none⟩
    "u" ⟨"o", "rp", none, ""⟩ "s" rfl (by decide)

theorem unquoteBytes_cons_ne (b : Nat) (l : List Nat) (hb : b ≠ 37) :
    unquoteBytes (b :: l) = b :: unquoteBytes l := by
  rw [unquoteBytes.eq_def]
  split
  · rename_i h
    cases h
  · rename_i h1 h2 h3 h4
    injection h4 with hb' _
    exact absurd hb' hb
  · rename_i h
    injection h with hb' hl'
    rw [hb', hl']

theorem unquoteBytes_escape (h1 h2 : Nat) (rest : List Nat) (a v : Nat)
    (e1 : hexVal h1 = some a) (e2 : hexVal h2 = some v) :
    unquoteBytes (37 :: h1 :: h2 :: rest) = (16 * a + v) :: unquoteBytes rest := by
  simp [unquoteBytes, e1, e2]

theorem hexVal_lt (x a : Nat) (h : hexVal x = some a) : a < 16 := by
  unfold hexVal at h
  by_cases c1 : (48 ≤ x && x ≤ 57) = true
  · rw [if_pos c1] at h
    simp only [Bool.and_eq_true, decide_eq_true_eq] at c1
    cases h
    omega
  · rw [if_neg c1] at h
    by_cases c2 : (65 ≤ x && x ≤ 70) = true
    · rw [if_pos c2] at h
      simp only [Bool.and_eq_true, decide_eq_true_eq] at c2
      cases h
      omega
    · rw [if_neg c2] at h
      by_cases c3 : (97 ≤ x && x ≤ 102) = true
      · rw [if_pos c3] at h
        simp only [Bool.and_eq_true, decide_eq_true_eq] at c3
        cases h
        omega
      · rw [if_neg c3] at h
        cases h

theorem hexVal_hexDigitUpper (n : Nat) (h : n < 16) : hexVal (hexDigitUpper n) = some n := by
  unfold hexVal hexDigitUpper
  by_cases hn : n < 10
  · rw [if_pos hn,
      if_pos (by simp only [Bool.and_eq_true, decide_eq_true_eq]; omega)]
    congr 1
    omega
  · rw [if_neg hn,
      if_neg (by simp only [Bool.and_eq_true, decide_eq_true_eq]; omega),
      if_pos (by simp only [Bool.and_eq_true, decide_eq_true_eq]; omega)]
    congr 1
    omega

theorem hexDigitUpper_ne_37 (n : Nat) : hexDigitUpper n ≠ 37 := by
  unfold hexDigitUpper
  split <;> omega

theorem hexDigitUpper_ne_47 (n : Nat) : hexDigitUpper n ≠ 47 := by
  unfold hexDigitUpper
  split <;> omega

theorem isAlwaysSafe_ne_37 (b : Nat) (h : isAlwaysSafe b = true) : b ≠ 37 := by
  unfold isAlwaysSafe at h
  simp only [Bool.or_eq_true, Bool.and_eq_true, decide_eq_true_eq] at h
  omega

theorem isAlwaysSafe_ne_47 (b : Nat) (h : isAlwaysSafe b = true) : b ≠ 47 := by
  unfold isAlwaysSafe at h
  simp only [Bool.or_eq_true, Bool.and_eq_true, decide_eq_true_eq] at h
  omega

theorem quoteBytes_cons (b : Nat) (rest : List Nat) :
    quoteBytes (b :: rest) =
      (if isAlwaysSafe b then [b]
       else [37, hexDigitUpper (b / 16), hexDigitUpper (b % 16)]) ++ quoteBytes rest := by
  simp [quoteBytes]

theorem not_mem_quoteBytes_47 (bs : List Nat) : (47 : Nat) ∉ quoteBytes bs := by
  intro h
  unfold quoteBytes at h
  rw [List.mem_flatMap] at h
  obtain ⟨b, _, hmem⟩ := h
  by_cases hs : isAlwaysSafe b = true
  · rw [if_pos hs] at hmem
    simp only [List.mem_singleton] at hmem
    exact isAlwaysSafe_ne_47 b hs hmem.symm
  · rw [if_neg hs] at hmem
    simp only [List.mem_cons, List.mem_singleton] at hmem
    rcases hmem with h1 | h2 | h3
    · omega
    · exact hexDigitUpper_ne_47 _ h2.symm
    · rcases h3 with h3 | h3
      · exact hexDigitUpper_ne_47 _ h3.symm
      · simp at h3

theorem unquote_quote (bs : List Nat) (h : ∀ b ∈ bs, b < 256) :
    unquoteBytes (quoteBytes bs) = bs := by
  induction bs with
  | nil => rfl
  | cons b rest ih =>
    have hb : b < 256 := h b (by simp)
    have ihr := ih (fun x hx => h x (by simp [hx]))
    rw [quoteBytes_cons]
    by_cases hs : isAlwaysSafe b = true
    · rw [if_pos hs]
      show unquoteBytes (b :: quoteBytes rest) = b :: rest
      rw [unquoteBytes_cons_ne b _ (isAlwaysSafe_ne_37 b hs), ihr]
    · rw [if_neg hs]
      show unquoteBytes (37 :: hexDigitUpper (b / 16) :: hexDigitUpper (b % 16) ::
        quoteBytes rest) = b :: rest
      rw [unquoteBytes_escape _ _ _ (b / 16) (b % 16)
        (hexVal_hexDigitUpper _ (by omega)) (hexVal_hexDigitUpper _ (by omega)), ihr]
      congr 1
      omega

theorem unquoteBytes_escape_invalid (h1 h2 : Nat) (rest : List Nat)
    (e12 : ∀ a v, hexVal h1 = some a → hexVal h2 = some v → False) :
    unquoteBytes (37 :: h1 :: h2 :: rest) = 37 :: unquoteBytes (h1 :: h2 :: rest) := by
  cases hh1 : hexVal h1 with
  | none => simp [unquoteBytes, hh1]
  | some a =>
    cases hh2 : hexVal h2 with
    | none => simp [unquoteBytes, hh1, hh2]
    | some v => exact (e12 a v hh1 hh2).elim

theorem unquoteBytes_cons_catchall (b : Nat) (rest : List Nat)
    (hfun : ∀ h1 h2 r1, b = 37 → rest = h1 :: h2 :: r1 → False) :
    unquoteBytes (b :: rest) = b :: unquoteBytes rest := by
  by_cases hb : b = 37
  · subst hb
    cases rest with
    | nil => rfl
    | cons r1 rest1 =>
      cases rest1 with
      | nil => rfl
      | cons r2 rest2 => exact (hfun r1 r2 rest2 rfl rfl).elim
  · exact unquoteBytes_cons_ne b rest hb

theorem unquoteBytes_lt (l : List Nat) (h : ∀ b ∈ l, b < 256) :
    ∀ b ∈ unquoteBytes l, b < 256 := by
  induction l using unquoteBytes.induct with
  | case1 =>
    intro b hb
    simp [unquoteBytes] at hb
  | case2 h1 h2 rest a v ev ea ih =>
    intro b hb
    rw [unquoteBytes_escape h1 h2 rest a v ea ev] at hb
    rcases List.mem_cons.mp hb with hb | hb
    · have ha2 := hexVal_lt h1 a ea
      have hv2 := hexVal_lt h2 v ev
      omega
    · exact ih (fun x hx => h x (by simp [hx])) b hb
  | case3 h1 h2 rest e12 ih =>
    intro b hb
    rw [unquoteBytes_escape_invalid h1 h2 rest e12] at hb
    rcases List.mem_cons.mp hb with hb | hb
    · omega
    · refine ih (fun x hx => h x ?_) b hb
      simp only [List.mem_cons] at hx ⊢
      tauto
  | case4 b rest hfun ih =>
    intro x hx
    rw [unquoteBytes_cons_catchall b rest hfun] at hx
    rcases List.mem_cons.mp hx with hx | hx
    · exact hx ▸ h b (by simp)
    · exact ih (fun y hy => h y (by simp [hy])) x hx

theorem splitSep_ne_nil {α : Type} [DecidableEq α] (sep : α) (l : List α) :
    splitSep sep l ≠ [] := by
  cases l with
  | nil => simp [splitSep]
  | cons b rest =>
    simp only [splitSep]
    cases hsp : splitSep sep rest with
    | nil => simp
    | cons s ss => by_cases hb : b = sep <;> simp [hb]

theorem splitSep_cons_eq {α : Type} [DecidableEq α] (sep c : α) (rest : List α) (s : List α)
    (ss : List (List α)) (hsp : splitSep sep rest = s :: ss) :
    splitSep sep (c :: rest) = if c = sep then [] :: s :: ss else (c :: s) :: ss := by
  simp only [splitSep, hsp]

theorem splitSep_no_sep {α : Type} [DecidableEq α] (sep : α) (l : List α) (h : sep ∉ l) :
    splitSep sep l = [l] := by
  induction l with
  | nil => rfl
  | cons b rest ih =>
    have hb : b ≠ sep := by
      intro hc
      exact h (by simp [hc])
    have ih2 := ih (fun hc => h (List.mem_cons_of_mem _ hc))
    simp [splitSep, ih2, hb]

theorem splitSep_append_sep {α : Type} [DecidableEq α] (sep : α) (s t : List α) (h : sep ∉ s) :
    splitSep sep (s ++ sep :: t) = s :: splitSep sep t := by
  induction s with
  | nil =>
    simp only [List.nil_append, splitSep]
    cases hsp : splitSep sep t with
    | nil => exact absurd hsp (splitSep_ne_nil sep t)
    | cons s0 ss => simp
  | cons a s ih =>
    have ha : a ≠ sep := by
      intro hc
      exact h (by simp [hc])
    have ih2 := ih (fun hc => h (List.mem_cons_of_mem _ hc))
    cases hsp : splitSep sep t with
    | nil => exact absurd hsp (splitSep_ne_nil sep t)
    | cons s0 ss =>
      rw [hsp] at ih2
      rw [List.cons_append, splitSep_cons_eq sep a _ _ _ ih2, if_neg ha, ← hsp]

theorem splitSep_join {α : Type} [DecidableEq α] (sep : α) (segs : List (List α))
    (h : ∀ seg ∈ segs, sep ∉ seg) (hne : segs ≠ []) :
    splitSep sep (joinSep sep segs) = segs := by
  induction segs with
  | nil => exact absurd rfl hne
  | cons s rest ih =>
    cases rest with
    | nil => exact splitSep_no_sep sep s (h s (by simp))
    | cons s2 rest2 =>
      have hj : joinSep sep (s :: s2 :: rest2) = s ++ sep :: joinSep sep (s2 :: rest2) := rfl
      rw [hj, splitSep_append_sep sep s _ (h s (by simp)),
        ih (fun seg hs => h seg (by simp [hs])) (by simp)]

theorem mem_of_mem_splitSep {α : Type} [DecidableEq α] (sep : α) (l : List α) :
    ∀ seg ∈ splitSep sep l, ∀ b ∈ seg, b ∈ l := by
  induction l with
  | nil =>
    intro seg hseg b hb
    simp only [splitSep, List.mem_singleton] at hseg
    subst hseg
    simp at hb
  | cons c rest ih =>
    intro seg hseg b hb
    cases hsp : splitSep sep rest with
    | nil => exact absurd hsp (splitSep_ne_nil sep rest)
    | cons s ss =>
      rw [splitSep_cons_eq sep c rest s ss hsp] at hseg
      by_cases hc : c = sep
      · rw [if_pos hc] at hseg
        rcases List.mem_cons.mp hseg with hseg | hseg
        · subst hseg
          simp at hb
        · exact List.mem_cons_of_mem _ (ih seg (hsp ▸ hseg) b hb)
      · rw [if_neg hc] at hseg
        rcases List.mem_cons.mp hseg with hseg | hseg
        · subst hseg
          rcases List.mem_cons.mp hb with hb | hb
          · exact hb ▸ List.mem_cons_self c rest
          · exact List.mem_cons_of_mem _ (ih s (hsp ▸ List.mem_cons_self s ss) b hb)
        · exact List.mem_cons_of_mem _ (ih seg (hsp ▸ List.mem_cons_of_mem _ hseg) b hb)

theorem splitSep_length_count {α : Type} [DecidableEq α] (sep : α) (l : List α) :
    (splitSep sep l).length = l.count sep + 1 := by
  induction l with
  | nil => simp [splitSep]
  | cons c rest ih =>
    cases hsp : splitSep sep rest with
    | nil => exact absurd hsp (splitSep_ne_nil sep rest)
    | cons s ss =>
      have hlen : (s :: ss).length = rest.count sep + 1 := by
        rw [← hsp]
        exact ih
      rw [splitSep_cons_eq sep c rest s ss hsp]
      by_cases hc : c = sep
      · rw [if_pos hc]
        simp only [List.length_cons] at hlen ⊢
        rw [List.count_cons]
        simp [hc]
        omega
      · rw [if_neg hc]
        simp only [List.length_cons] at hlen ⊢
        rw [List.count_cons]
        simp [hc]
        omega

theorem joinSep_count {α : Type} [DecidableEq α] (sep : α) (segs : List (List α))
    (h : ∀ seg ∈ segs, sep ∉ seg) (hne : segs ≠ []) :
    (joinSep sep segs).count sep = segs.length - 1 := by
  induction segs with
  | nil => exact absurd rfl hne
  | cons s rest ih =>
    cases rest with
    | nil =>
      show s.count sep = 0
      exact List.count_eq_zero.mpr (h s (by simp))
    | cons s2 rest2 =>
      have hj : joinSep sep (s :: s2 :: rest2) = s ++ sep :: joinSep sep (s2 :: rest2) := rfl
      rw [hj, List.count_append, List.count_cons_self,
        List.count_eq_zero.mpr (h s (by simp)),
        ih (fun seg hs => h seg (by simp [hs])) (by simp)]
      simp

theorem map_congr_mem {α β : Type} (l : List α) (f g : α → β) (h : ∀ a ∈ l, f a = g a) :
    l.map f = l.map g := by
  induction l with
  | nil => rfl
  | cons a rest ih => simp [h a (by simp), ih (fun x hx => h x (by simp [hx]))]

theorem encode_segments (p : List Nat) :
    splitSep 47 (encode_path_preserving_segments p) =
      (splitSep 47 p).map (fun seg => quoteBytes (unquoteBytes seg)) := by
  unfold encode_path_preserving_segments
  apply splitSep_join
  · intro seg hseg
    rw [List.mem_map] at hseg
    obtain ⟨s0, _, rfl⟩ := hseg
    exact not_mem_quoteBytes_47 _
  · intro hc
    cases hsp : splitSep 47 p with
    | nil => exact splitSep_ne_nil 47 p hsp
    | cons s ss =>
      rw [hsp] at hc
      simp at hc

theorem map_quote_unquote_eq (l1 l2 : List (List Nat))
    (h : l1.map unquoteBytes = l2.map unquoteBytes) :
    l1.map (fun seg => quoteBytes (unquoteBytes seg)) =
      l2.map (fun seg => quoteBytes (unquoteBytes seg)) := by
  have h1 : l1.map (fun seg => quoteBytes (unquoteBytes seg)) =
      (l1.map unquoteBytes).map quoteBytes := by
    rw [List.map_map]
    rfl
  have h2 : l2.map (fun seg => quoteBytes (unquoteBytes seg)) =
      (l2.map unquoteBytes).map quoteBytes := by
    rw [List.map_map]
    rfl
  rw [h1, h2, h]

/-- C9: the per-segment path encoder (decode each slash-separated segment, then
re-percent-encode it).  (i) It is idempotent on byte strings; (ii) any two
paths whose segments percent-decode alike — in particular a raw path and any
partially-encoded form of it — produce byte-identical output; (iii) the
literal slash separators are never encoded (the output has exactly the
slashes of the input). -/
theorem C9_segment_encoding :
    (∀ p : List Nat, (∀ b ∈ p, b < 256) →
      encode_path_preserving_segments (encode_path_preserving_segments p) =
        encode_path_preserving_segments p) ∧
    (∀ p pe : List Nat,
      (splitSep 47 pe).map unquoteBytes = (splitSep 47 p).map unquoteBytes →
      encode_path_preserving_segments pe = encode_path_preserving_segments p) ∧
    (∀ p : List Nat, (encode_path_preserving_segments p).count 47 = p.count 47) := by
  refine ⟨?_, ?_, ?_⟩
  · intro p hp
    show joinSep 47 ((splitSep 47 (encode_path_preserving_segments p)).map
      (fun seg => quoteBytes (unquoteBytes seg))) = encode_path_preserving_segments p
    rw [encode_segments p, List.map_map]
    unfold encode_path_preserving_segments
    congr 1
    apply map_congr_mem
    intro seg hseg
    have hsb : ∀ b ∈ seg, b < 256 :=
      fun b hb => hp b (mem_of_mem_splitSep 47 p seg hseg b hb)
    show quoteBytes (unquoteBytes (quoteBytes (unquoteBytes seg))) =
      quoteBytes (unquoteBytes seg)
    rw [unquote_quote (unquoteBytes seg) (unquoteBytes_lt seg hsb)]
  · intro p pe h
    unfold encode_path_preserving_segments
    rw [map_quote_unquote_eq _ _ h]
  · intro p
    have hno : ∀ seg ∈ (splitSep 47 p).map (fun seg => quoteBytes (unquoteBytes seg)),
        (47 : Nat) ∉ seg := by
      intro seg hseg
      rw [List.mem_map] at hseg
      obtain ⟨s0, _, rfl⟩ := hseg
      exact not_mem_quoteBytes_47 _
    have hne : (splitSep 47 p).map (fun seg => quoteBytes (unquoteBytes seg)) ≠ [] := by
      intro hc
      cases hsp : splitSep 47 p with
      | nil => exact splitSep_ne_nil 47 p hsp
      | cons s ss =>
        rw [hsp] at hc
        simp at hc
    unfold encode_path_preserving_segments
    rw [joinSep_count 47 _ hno hne, List.length_map, splitSep_length_count]
    omega

/-- Witness for C9 at the byte strings of "a b/c%41" and its partially-encoded
form "a%20b/c": idempotence, encoding-state independence, slash preservation. -/
theorem C9_witness :
    encode_path_preserving_segments (encode_path_preserving_segments
      [97, 32, 98, 47, 99, 37, 52, 49]) =
      encode_path_preserving_segments [97, 32, 98, 47, 99, 37, 52, 49] ∧
    encode_path_preserving_segments [97, 37, 50, 48, 98, 47, 99] =
      encode_path_preserving_segments [97, 32, 98, 47, 99] ∧
    (encode_path_preserving_segments [97, 32, 98, 47, 99, 37, 52, 49]).count 47 =
      ([97, 32, 98, 47, 99, 37, 52, 49] : List Nat).count 47 :=
  ⟨C9_segment_encoding.1 [97, 32, 98, 47, 99, 37, 52, 49] (by decide),
   C9_segment_encoding.2.1 [97, 32, 98, 47, 99] [97, 37, 50, 48, 98, 47, 99] (by decide),
   C9_segment_encoding.2.2 [97, 32, 98, 47, 99, 37, 52, 49]⟩

theorem char_toNat_ofNat (n : Nat) (h : n.isValidChar) : (Char.ofNat n).toNat = n := by
  rw [Char.ofNat, dif_pos h]
  rfl

theorem fullwidthToAscii_ascii (c : Char) (h : c.toNat ≤ 0x7E) : fullwidthToAscii c = c := by
  unfold fullwidthToAscii
  rw [if_neg (by omega)]

theorem nfkc_fullwidthify (c : Char) :
    fullwidthToAscii (asciiToFullwidth c) = fullwidthToAscii c := by
  unfold asciiToFullwidth
  by_cases hc : 0x21 ≤ c.toNat ∧ c.toNat ≤ 0x7E
  · rw [if_pos hc]
    have hv : (Char.ofNat (c.toNat + 0xFEE0)).toNat = c.toNat + 0xFEE0 :=
      char_toNat_ofNat _ (Or.inr ⟨by omega, by omega⟩)
    unfold fullwidthToAscii
    rw [if_pos (by rw [hv]; omega), if_neg (show ¬(0xFF01 ≤ c.toNat ∧ c.toNat ≤ 0xFF5E) by omega),
      hv]
    have he : c.toNat + 0xFEE0 - 0xFEE0 = c.toNat := by omega
    rw [he, Char.ofNat_toNat]
  · rw [if_neg hc]

/-- Full-width look-alike corruption never changes the parse: NFKC restores
every full-width character before any pattern matching. -/
theorem parse_fullwidth_invariant (s : String) :
    parse_repo_url (fullwidthify s) = parse_repo_url s := by
  unfold parse_repo_url
  congr 1
  show pyStripL (nfkcL (fullwidthify s).data) = pyStripL (nfkcL s.data)
  congr 1
  show (s.data.map asciiToFullwidth).map fullwidthToAscii = s.data.map fullwidthToAscii
  rw [List.map_map]
  exact map_congr_mem _ _ _ (fun c _ => nfkc_fullwidthify c)

theorem isPrefixL_cons_eq (a : Char) (p l : List Char) :
    isPrefixL (a :: p) (a :: l) = isPrefixL p l := by
  simp [isPrefixL]

theorem isPrefixL_cons_ne (a b : Char) (p l : List Char) (h : a ≠ b) :
    isPrefixL (a :: p) (b :: l) = false := by
  simp [isPrefixL, h]

theorem isPrefixL_self_append (p rest : List Char) : isPrefixL p (p ++ rest) = true := by
  induction p with
  | nil => rfl
  | cons a p ih => simp [isPrefixL, ih]

theorem takeWhile_append_all {α : Type} (q : α → Bool) (a rest : List α)
    (h : ∀ c ∈ a, q c = true) :
    (a ++ rest).takeWhile q = a ++ rest.takeWhile q := by
  induction a with
  | nil => rfl
  | cons c a ih =>
    simp only [List.cons_append, List.takeWhile_cons, h c (by simp), if_true]
    rw [ih (fun x hx => h x (by simp [hx]))]

theorem takeWhile_all {α : Type} (q : α → Bool) (l : List α) (h : ∀ c ∈ l, q c = true) :
    l.takeWhile q = l := by
  induction l with
  | nil => rfl
  | cons c a ih =>
    simp only [List.takeWhile_cons, h c (by simp), if_true]
    rw [ih (fun x hx => h x (by simp [hx]))]

theorem takeWhile_cons_false {α : Type} (q : α → Bool) (c : α) (l : List α) (h : q c = false) :
    (c :: l).takeWhile q = [] := by
  simp [List.takeWhile_cons, h]

theorem drop_length_append {α : Type} (a b : List α) (n : Nat) (h : n = a.length) :
    (a ++ b).drop n = b := by
  subst h
  exact List.drop_left a b

theorem drop_length_cons_append {α : Type} (a : List α) (c : α) (b : List α) (n : Nat)
    (h : n = a.length + 1) : (a ++ c :: b).drop n = b := by
  subst h
  induction a with
  | nil => rfl
  | cons x a ih => simp only [List.cons_append, List.length_cons, List.drop_succ_cons]; exact ih

theorem splitScheme_of_colon (sch rest : List Char) (hne : sch ≠ [])
    (halpha : (sch.headD ' ').isAlpha = true) (hchars : sch.all isSchemeChar = true)
    (hcolon : ∀ c ∈ sch, c ≠ ':') :
    splitScheme (sch ++ ':' :: rest) = (toLowerL sch, rest) := by
  unfold splitScheme
  have ht : (sch ++ ':' :: rest).takeWhile (fun c => decide (c ≠ ':')) = sch := by
    rw [takeWhile_append_all _ _ _ (fun c hc => by simp [hcolon c hc]),
      takeWhile_cons_false _ _ _ (by simp)]
    simp
  rw [ht]
  rw [if_pos]
  · rw [drop_length_cons_append sch ':' rest (sch.length + 1) rfl]
  · cases sch with
    | nil => exact absurd rfl hne
    | cons c l2 =>
      simp only [List.headD_cons] at halpha
      have hlen : (c :: l2).length < ((c :: l2) ++ ':' :: rest).length := by
        rw [List.length_append]
        simp
      simp [hlen, halpha, hchars]

theorem splitScheme_no_colon (l : List Char) (h : ∀ c ∈ l, c ≠ ':') :
    splitScheme l = ([], l) := by
  unfold splitScheme
  have ht : l.takeWhile (fun c => decide (c ≠ ':')) = l :=
    takeWhile_all _ l (fun c hc => by simp [h c hc])
  rw [ht, if_neg]
  simp

theorem parse_core_with_scheme (l : List Char)
    (hgit : isPrefixL "git@github.com:".data l = false)
    (hsch : (splitScheme l).1.isEmpty = false) :
    parse_core l = parse_after_rewrite l := by
  simp [parse_core, hgit, hsch]

theorem parse_core_schemeless (l : List Char)
    (hgit : isPrefixL "git@github.com:".data l = false)
    (hsch : (splitScheme l).1.isEmpty = true)
    (hwww : isPrefixL "www.github.com/".data (toLowerL l) = false)
    (hhost : isPrefixL "github.com/".data (toLowerL l) = true ∨
      isPrefixL "raw.githubusercontent.com/".data (toLowerL l) = true) :
    parse_core l = parse_after_rewrite ("https://".data ++ l) := by
  rcases hhost with hh | hh
  · by_cases hh2 : isPrefixL "raw.githubusercontent.com/".data (toLowerL l) = true <;>
      simp [parse_core, hgit, hsch, hwww, hh, hh2]
  · by_cases hh2 : isPrefixL "github.com/".data (toLowerL l) = true <;>
      simp [parse_core, hgit, hsch, hwww, hh, hh2]

theorem char_ne_of_toNat_lt (c d : Char) (h : 0x21 ≤ c.toNat) (hd : d.toNat < 0x21) :
    c ≠ d := by
  intro hc
  subst hc
  omega

theorem not_whitespace_of_ge (c : Char) (h : 0x21 ≤ c.toNat) : c.isWhitespace = false := by
  unfold Char.isWhitespace
  simp [char_ne_of_toNat_lt c ' ' h (by decide), char_ne_of_toNat_lt c '\t' h (by decide),
    char_ne_of_toNat_lt c '\r' h (by decide), char_ne_of_toNat_lt c '\n' h (by decide)]

theorem dropWhile_id {α : Type} (p : α → Bool) (l : List α) (h : ∀ c ∈ l, p c = false) :
    l.dropWhile p = l := by
  cases l with
  | nil => rfl
  | cons a rest => simp [List.dropWhile_cons, h a (by simp)]

theorem pyStripL_id (l : List Char) (h : ∀ c ∈ l, c.isWhitespace = false) : pyStripL l = l := by
  unfold pyStripL
  rw [dropWhile_id _ l h, dropWhile_id _ l.reverse (fun c hc => h c (List.mem_reverse.mp hc)),
    List.reverse_reverse]

theorem nfkcL_id (l : List Char) (h : ∀ c ∈ l, c.toNat ≤ 0x7E) : nfkcL l = l := by
  unfold nfkcL
  rw [map_congr_mem l _ id (fun c hc => fullwidthToAscii_ascii c (h c hc))]
  exact List.map_id l

theorem strip_nfkc_id (l : List Char) (h : ∀ c ∈ l, 0x21 ≤ c.toNat ∧ c.toNat ≤ 0x7E) :
    pyStripL (nfkcL l) = l := by
  rw [nfkcL_id l (fun c hc => (h c hc).2), pyStripL_id l
    (fun c hc => not_whitespace_of_ge c (h c hc).1)]

theorem all_chars_append {P : Char → Prop} (l1 l2 : List Char) (h1 : ∀ c ∈ l1, P c)
    (h2 : ∀ c ∈ l2, P c) : ∀ c ∈ l1 ++ l2, P c :=
  fun c hc => (List.mem_append.mp hc).elim (h1 c) (h2 c)

theorem parse_dropscheme_github (t : List Char)
    (h : ∀ c ∈ t, 0x21 ≤ c.toNat ∧ c.toNat ≤ 0x7E ∧ c ≠ ':') :
    parse_repo_url ⟨"github.com/".data ++ t⟩ =
      parse_repo_url ⟨"https://github.com/".data ++ t⟩ := by
  have hlitG : ∀ c ∈ ("github.com/".data : List Char),
      0x21 ≤ c.toNat ∧ c.toNat ≤ 0x7E ∧ c ≠ ':' := by decide
  have hlitH : ∀ c ∈ ("https://github.com/".data : List Char),
      0x21 ≤ c.toNat ∧ c.toNat ≤ 0x7E := by decide
  have hs0 := all_chars_append _ t hlitG h
  have hcanon : ∀ c ∈ ("https://github.com/".data : List Char) ++ t,
      0x21 ≤ c.toNat ∧ c.toNat ≤ 0x7E :=
    all_chars_append _ t hlitH (fun c hc => ⟨(h c hc).1, (h c hc).2.1⟩)
  show parse_core (pyStripL (nfkcL ("github.com/".data ++ t))) =
    parse_core (pyStripL (nfkcL ("https://github.com/".data ++ t)))
  rw [strip_nfkc_id _ (fun c hc => ⟨(hs0 c hc).1, (hs0 c hc).2.1⟩), strip_nfkc_id _ hcanon]
  have e1 : ("git@github.com:".data : List Char) = 'g' :: 'i' :: 't' :: '@' ::
      "github.com:".data := rfl
  have e2 : ("github.com/".data : List Char) ++ t = 'g' :: 'i' :: 't' :: 'h' ::
      ("ub.com/".data ++ t) := rfl
  have hgit : isPrefixL "git@github.com:".data ("github.com/".data ++ t) = false := by
    rw [e1, e2, isPrefixL_cons_eq, isPrefixL_cons_eq, isPrefixL_cons_eq]
    exact isPrefixL_cons_ne '@' 'h' _ _ (by decide)
  have hnc : ∀ c ∈ ("github.com/".data : List Char) ++ t, c ≠ ':' :=
    fun c hc => (hs0 c hc).2.2
  have hsch : (splitScheme ("github.com/".data ++ t)).1.isEmpty = true := by
    rw [splitScheme_no_colon _ hnc]
    rfl
  have e3 : toLowerL (("github.com/".data : List Char) ++ t) =
      "github.com/".data ++ toLowerL t := by
    unfold toLowerL
    rw [List.map_append]
    congr 1
  have e4 : ("www.github.com/".data : List Char) = 'w' :: "ww.github.com/".data := rfl
  have e5 : ("github.com/".data : List Char) ++ toLowerL t = 'g' ::
      ("ithub.com/".data ++ toLowerL t) := rfl
  have hwww : isPrefixL "www.github.com/".data
      (toLowerL ("github.com/".data ++ t)) = false := by
    rw [e3, e4, e5]
    exact isPrefixL_cons_ne 'w' 'g' _ _ (by decide)
  have hhost : isPrefixL "github.com/".data (toLowerL ("github.com/".data ++ t)) = true := by
    rw [e3]
    exact isPrefixL_self_append _ _
  rw [parse_core_schemeless _ hgit hsch hwww (Or.inl hhost)]
  have e6 : ("https://github.com/".data : List Char) ++ t = "https".data ++ ':' ::
      ("//github.com/".data ++ t) := rfl
  have hgit2 : isPrefixL "git@github.com:".data ("https://github.com/".data ++ t) = false := by
    rw [e1, show ("https://github.com/".data : List Char) ++ t = 'h' ::
      ("ttps://github.com/".data ++ t) from rfl]
    exact isPrefixL_cons_ne 'g' 'h' _ _ (by decide)
  have hsch2 : (splitScheme ("https://github.com/".data ++ t)).1.isEmpty = false := by
    rw [e6, splitScheme_of_colon _ _ (by decide) (by decide) (by decide) (by decide)]
    rfl
  rw [parse_core_with_scheme _ hgit2 hsch2]
  rfl

theorem parse_dropscheme_raw (t : List Char)
    (h : ∀ c ∈ t, 0x21 ≤ c.toNat ∧ c.toNat ≤ 0x7E ∧ c ≠ ':') :
    parse_repo_url ⟨"raw.githubusercontent.com/".data ++ t⟩ =
      parse_repo_url ⟨"https://raw.githubusercontent.com/".data ++ t⟩ := by
  have hlitG : ∀ c ∈ ("raw.githubusercontent.com/".data : List Char),
      0x21 ≤ c.toNat ∧ c.toNat ≤ 0x7E ∧ c ≠ ':' := by decide
  have hlitH : ∀ c ∈ ("https://raw.githubusercontent.com/".data : List Char),
      0x21 ≤ c.toNat ∧ c.toNat ≤ 0x7E := by decide
  have hs0 := all_chars_append _ t hlitG h
  have hcanon : ∀ c ∈ ("https://raw.githubusercontent.com/".data : List Char) ++ t,
      0x21 ≤ c.toNat ∧ c.toNat ≤ 0x7E :=
    all_chars_append _ t hlitH (fun c hc => ⟨(h c hc).1, (h c hc).2.1⟩)
  show parse_core (pyStripL (nfkcL ("raw.githubusercontent.com/".data ++ t))) =
    parse_core (pyStripL (nfkcL ("https://raw.githubusercontent.com/".data ++ t)))
  rw [strip_nfkc_id _ (fun c hc => ⟨(hs0 c hc).1, (hs0 c hc).2.1⟩), strip_nfkc_id _ hcanon]
  have e1 : ("git@github.com:".data : List Char) = 'g' :: "it@github.com:".data := rfl
  have hgit : isPrefixL "git@github.com:".data
      ("raw.githubusercontent.com/".data ++ t) = false := by
    rw [e1, show ("raw.githubusercontent.com/".data : List Char) ++ t = 'r' ::
      ("aw.githubusercontent.com/".data ++ t) from rfl]
    exact isPrefixL_cons_ne 'g' 'r' _ _ (by decide)
  have hnc : ∀ c ∈ ("raw.githubusercontent.com/".data : List Char) ++ t, c ≠ ':' :=
    fun c hc => (hs0 c hc).2.2
  have hsch : (splitScheme ("raw.githubusercontent.com/".data ++ t)).1.isEmpty = true := by
    rw [splitScheme_no_colon _ hnc]
    rfl
  have e3 : toLowerL (("raw.githubusercontent.com/".data : List Char) ++ t) =
      "raw.githubusercontent.com/".data ++ toLowerL t := by
    unfold toLowerL
    rw [List.map_append]
    congr 1
  have hwww : isPrefixL "www.github.com/".data
      (toLowerL ("raw.githubusercontent.com/".data ++ t)) = false := by
    rw [e3, show ("www.github.com/".data : List Char) = 'w' :: "ww.github.com/".data from rfl,
      show ("raw.githubusercontent.com/".data : List Char) ++ toLowerL t = 'r' ::
        ("aw.githubusercontent.com/".data ++ toLowerL t) from rfl]
    exact isPrefixL_cons_ne 'w' 'r' _ _ (by decide)
  have hhost : isPrefixL "raw.githubusercontent.com/".data
      (toLowerL ("raw.githubusercontent.com/".data ++ t)) = true := by
    rw [e3]
    exact isPrefixL_self_append _ _
  rw [parse_core_schemeless _ hgit hsch hwww (Or.inr hhost)]
  have e6 : ("https://raw.githubusercontent.com/".data : List Char) ++ t =
      "https".data ++ ':' :: ("//raw.githubusercontent.com/".data ++ t) := rfl
  have hgit2 : isPrefixL "git@github.com:".data
      ("https://raw.githubusercontent.com/".data ++ t) = false := by
    rw [e1, show ("https://raw.githubusercontent.com/".data : List Char) ++ t = 'h' ::
      ("ttps://raw.githubusercontent.com/".data ++ t) from rfl]
    exact isPrefixL_cons_ne 'g' 'h' _ _ (by decide)
  have hsch2 : (splitScheme ("https://raw.githubusercontent.com/".data ++ t)).1.isEmpty =
      false := by
    rw [e6, splitScheme_of_colon _ _ (by decide) (by decide) (by decide) (by decide)]
    rfl
  rw [parse_core_with_scheme _ hgit2 hsch2]
  rfl

theorem string_eq_of_data (s : String) (l : List Char) (h : s.data = l) : s = ⟨l⟩ := by
  cases s
  exact congrArg String.mk h

theorem seg_chars (s : String) (hs : s.data.all urlSafeSeg = true) :
    ∀ c ∈ s.data, 0x21 ≤ c.toNat ∧ c.toNat ≤ 0x7E ∧ c ≠ ':' := by
  intro c hc
  have h2 := List.all_eq_true.mp hs c hc
  unfold urlSafeSeg at h2
  simp only [Bool.and_eq_true, decide_eq_true_eq] at h2
  refine ⟨?_, ?_, ?_⟩ <;> tauto

theorem path_chars (s : String) (hs : s.data.all urlSafePath = true) :
    ∀ c ∈ s.data, 0x21 ≤ c.toNat ∧ c.toNat ≤ 0x7E ∧ c ≠ ':' := by
  intro c hc
  have h2 := List.all_eq_true.mp hs c hc
  unfold urlSafePath at h2
  simp only [Bool.and_eq_true, decide_eq_true_eq] at h2
  refine ⟨?_, ?_, ?_⟩ <;> tauto

theorem dropscheme_of_decomp (u : String) (T : List Char)
    (hu : u.data = "https://github.com/".data ++ T)
    (hT : ∀ c ∈ T, 0x21 ≤ c.toNat ∧ c.toNat ≤ 0x7E ∧ c ≠ ':') :
    parse_repo_url (dropHttpsScheme u) = parse_repo_url u := by
  have hcanon : u = ⟨"https://github.com/".data ++ T⟩ := string_eq_of_data _ _ hu
  have hsplit : ("https://github.com/".data : List Char) ++ T =
      "https://".data ++ ("github.com/".data ++ T) := by
    simp [List.append_assoc]
  have hdrop : dropHttpsScheme u = ⟨"github.com/".data ++ T⟩ := by
    unfold dropHttpsScheme
    rw [if_pos]
    · apply string_eq_of_data
      show u.data.drop 8 = _
      rw [hu, hsplit]
      exact drop_length_append _ _ 8 rfl
    · show startsWithL u "https://" = true
      unfold startsWithL
      rw [hu, hsplit]
      exact isPrefixL_self_append _ _
  rw [hdrop, parse_dropscheme_github T hT, ← hcanon]

theorem dropscheme_of_decomp_raw (u : String) (T : List Char)
    (hu : u.data = "https://raw.githubusercontent.com/".data ++ T)
    (hT : ∀ c ∈ T, 0x21 ≤ c.toNat ∧ c.toNat ≤ 0x7E ∧ c ≠ ':') :
    parse_repo_url (dropHttpsScheme u) = parse_repo_url u := by
  have hcanon : u = ⟨"https://raw.githubusercontent.com/".data ++ T⟩ := string_eq_of_data _ _ hu
  have hsplit : ("https://raw.githubusercontent.com/".data : List Char) ++ T =
      "https://".data ++ ("raw.githubusercontent.com/".data ++ T) := by
    simp [List.append_assoc]
  have hdrop : dropHttpsScheme u = ⟨"raw.githubusercontent.com/".data ++ T⟩ := by
    unfold dropHttpsScheme
    rw [if_pos]
    · apply string_eq_of_data
      show u.data.drop 8 = _
      rw [hu, hsplit]
      exact drop_length_append _ _ 8 rfl
    · show startsWithL u "https://" = true
      unfold startsWithL
      rw [hu, hsplit]
      exact isPrefixL_self_append _ _
  rw [hdrop, parse_dropscheme_raw T hT, ← hcanon]

/-- C8: for each of the four supported URL shapes, parsing is invariant under
full-width look-alike corruption (for any URL at all) and under removal of the
scheme (for components made of safe URL characters): the corrupted or
schemeless form parses to exactly the same result as the canonical form. -/
theorem C8_url_shape_invariance (o r b p : String)
    (ho : o.data.all urlSafeSeg = true) (hr : r.data.all urlSafeSeg = true)
    (hb : b.data.all urlSafeSeg = true) (hp : p.data.all urlSafePath = true) :
    (parse_repo_url (fullwidthify (blobUrl o r b p)) = parse_repo_url (blobUrl o r b p) ∧
     parse_repo_url (dropHttpsScheme (blobUrl o r b p)) = parse_repo_url (blobUrl o r b p)) ∧
    (parse_repo_url (fullwidthify (rawUrl o r b p)) = parse_repo_url (rawUrl o r b p) ∧
     parse_repo_url (dropHttpsScheme (rawUrl o r b p)) = parse_repo_url (rawUrl o r b p)) ∧
    (parse_repo_url (fullwidthify (treeUrl o r b p)) = parse_repo_url (treeUrl o r b p) ∧
     parse_repo_url (dropHttpsScheme (treeUrl o r b p)) = parse_repo_url (treeUrl o r b p)) ∧
    (parse_repo_url (fullwidthify (repoUrl o r)) = parse_repo_url (repoUrl o r) ∧
     parse_repo_url (dropHttpsScheme (repoUrl o r)) = parse_repo_url (repoUrl o r)) := by
  refine ⟨⟨parse_fullwidth_invariant _, ?_⟩, ⟨parse_fullwidth_invariant _, ?_⟩,
    ⟨parse_fullwidth_invariant _, ?_⟩, ⟨parse_fullwidth_invariant _, ?_⟩⟩
  · exact dropscheme_of_decomp _
      (o.data ++ ("/".data ++ (r.data ++ ("/blob/".data ++ (b.data ++ ("/".data ++ p.data))))))
      (by simp [blobUrl, String.data_append, List.append_assoc])
      (all_chars_append _ _ (seg_chars o ho) (all_chars_append _ _ (by decide)
        (all_chars_append _ _ (seg_chars r hr) (all_chars_append _ _ (by decide)
          (all_chars_append _ _ (seg_chars b hb) (all_chars_append _ _ (by decide)
            (path_chars p hp)))))))
  · exact dropscheme_of_decomp_raw _
      (o.data ++ ("/".data ++ (r.data ++ ("/".data ++ (b.data ++ ("/".data ++ p.data))))))
      (by simp [rawUrl, String.data_append, List.append_assoc])
      (all_chars_append _ _ (seg_chars o ho) (all_chars_append _ _ (by decide)
        (all_chars_append _ _ (seg_chars r hr) (all_chars_append _ _ (by decide)
          (all_chars_append _ _ (seg_chars b hb) (all_chars_append _ _ (by decide)
            (path_chars p hp)))))))
  · exact dropscheme_of_decomp _
      (o.data ++ ("/".data ++ (r.data ++ ("/tree/".data ++ (b.data ++ ("/".data ++ p.data))))))
      (by simp [treeUrl, String.data_append, List.append_assoc])
      (all_chars_append _ _ (seg_chars o ho) (all_chars_append _ _ (by decide)
        (all_chars_append _ _ (seg_chars r hr) (all_chars_append _ _ (by decide)
          (all_chars_append _ _ (seg_chars b hb) (all_chars_append _ _ (by decide)
            (path_chars p hp)))))))
  · exact dropscheme_of_decomp _ (o.data ++ ("/".data ++ r.data))
      (by simp [repoUrl, String.data_append, List.append_assoc])
      (all_chars_append _ _ (seg_chars o ho) (all_chars_append _ _ (by decide)
        (seg_chars r hr)))

theorem stringMk_data (s : String) : (⟨s.data⟩ : String) = s := by
  cases s
  rfl

theorem data_isEmpty_false (s : String) (h : s ≠ "") : s.data.isEmpty = false := by
  cases hd : s.data with
  | nil => exact absurd ((string_eq_of_data s [] hd).trans rfl) h
  | cons c l => rfl

theorem take_length_append {α : Type} (a b : List α) (n : Nat) (h : n = a.length) :
    (a ++ b).take n = a := by
  subst h
  exact List.take_left a b

theorem dropPrefixCI_self (pat T : List Char) (hlow : toLowerL pat = pat) :
    dropPrefixCI pat (pat ++ T) = some T := by
  unfold dropPrefixCI
  rw [take_length_append pat T _ rfl, hlow, if_pos rfl, drop_length_append pat T _ rfl]

theorem dropPrefixCI_mismatch (pat a T : List Char) (hlen : a.length ≤ pat.length)
    (hne : toLowerL a ≠ pat.take a.length) :
    dropPrefixCI pat (a ++ T) = none := by
  unfold dropPrefixCI
  rw [if_neg]
  intro hc
  apply hne
  have h2 := congrArg (List.take a.length) hc
  unfold toLowerL at h2 ⊢
  rw [List.map_take, List.take_take, show min a.length pat.length = a.length from by omega,
    List.map_append, take_length_append (a.map Char.toLower) (T.map Char.toLower) _
      (by simp)] at h2
  exact h2

theorem dropPrefixCI_mismatch_long (pat a T : List Char) (hlen : pat.length ≤ a.length)
    (hne : toLowerL (a.take pat.length) ≠ pat) :
    dropPrefixCI pat (a ++ T) = none := by
  unfold dropPrefixCI
  rw [if_neg]
  intro hc
  rw [List.take_append_of_le_length hlen] at hc
  exact hne hc

theorem joinSep_splitSep {α : Type} [DecidableEq α] (sep : α) (l : List α) :
    joinSep sep (splitSep sep l) = l := by
  induction l with
  | nil => rfl
  | cons c rest ih =>
    cases hsp : splitSep sep rest with
    | nil => exact absurd hsp (splitSep_ne_nil sep rest)
    | cons s ss =>
      rw [splitSep_cons_eq sep c rest s ss hsp]
      by_cases hc : c = sep
      · rw [if_pos hc]
        show sep :: joinSep sep (s :: ss) = c :: rest
        rw [← hsp, ih, hc]
      · rw [if_neg hc]
        cases ss with
        | nil =>
          show c :: s = c :: rest
          have : joinSep sep (s :: ([] : List (List α))) = s := rfl
          rw [← this, ← hsp, ih]
        | cons s2 ss2 =>
          show (c :: s) ++ sep :: joinSep sep (s2 :: ss2) = c :: rest
          have : joinSep sep (s :: s2 :: ss2) = s ++ sep :: joinSep sep (s2 :: ss2) := rfl
          rw [List.cons_append, ← this, ← hsp, ih]

theorem isPrefixL_append_sep_false (q a z : List Char) (sep : Char) (hsep : sep ∉ q)
    (hq : isPrefixL q a = false) : isPrefixL q (a ++ sep :: z) = false := by
  induction a generalizing q with
  | nil =>
    cases q with
    | nil => simp [isPrefixL] at hq
    | cons qc q2 =>
      have hne : qc ≠ sep := fun hc => hsep (hc ▸ List.mem_cons_self _ _)
      simp only [List.nil_append]
      exact isPrefixL_cons_ne qc sep q2 z hne
  | cons ac a2 ih =>
    cases q with
    | nil => simp [isPrefixL] at hq
    | cons qc q2 =>
      by_cases he : qc = ac
      · subst he
        rw [isPrefixL_cons_eq] at hq
        rw [List.cons_append, isPrefixL_cons_eq]
        exact ih q2 (fun hc => hsep (List.mem_cons_of_mem _ hc)) hq
      · exact isPrefixL_cons_ne qc ac q2 _ he

theorem isSuffixL_append_sep_false (s x y : List Char) (sep : Char) (hsep : sep ∉ s)
    (hy : isSuffixL s y = false) : isSuffixL s (x ++ sep :: y) = false := by
  unfold isSuffixL at hy ⊢
  rw [show (x ++ sep :: y).reverse = y.reverse ++ sep :: x.reverse from by simp]
  exact isPrefixL_append_sep_false s.reverse y.reverse x.reverse sep
    (fun hc => hsep (List.mem_reverse.mp hc)) hy

theorem seg_no_slash (s : String) (hs : s.data.all urlSafeSeg = true) : '/' ∉ s.data := by
  intro hm
  have h2 := List.all_eq_true.mp hs '/' hm
  unfold urlSafeSeg at h2
  simp at h2

theorem splitSep_T (o r m b p : List Char) (ho : '/' ∉ o) (hr : '/' ∉ r) (hm : '/' ∉ m)
    (hb : '/' ∉ b) :
    splitSep '/' (o ++ '/' :: (r ++ '/' :: (m ++ '/' :: (b ++ '/' :: p)))) =
      o :: r :: m :: b :: splitSep '/' p := by
  rw [splitSep_append_sep _ _ _ ho, splitSep_append_sep _ _ _ hr,
    splitSep_append_sep _ _ _ hm, splitSep_append_sep _ _ _ hb]

theorem splitOnceL_no (sep : Char) (l : List Char) (h : ∀ c ∈ l, c ≠ sep) :
    splitOnceL sep l = (l, []) := by
  unfold splitOnceL
  rw [takeWhile_all _ l (fun c hc => by simp [h c hc]), if_neg (by omega)]

theorem splitNetloc_eval (host T : List Char)
    (hhost : ∀ c ∈ host, c ≠ '/' ∧ c ≠ '?' ∧ c ≠ '#') :
    splitNetloc ('/' :: '/' :: (host ++ '/' :: T)) = (host, '/' :: T) := by
  have ht : (host ++ '/' :: T).takeWhile
      (fun c => c ≠ '/' && c ≠ '?' && c ≠ '#') = host := by
    rw [takeWhile_append_all _ _ _ (fun c hc => by simp [(hhost c hc).1, (hhost c hc).2.1,
      (hhost c hc).2.2]), takeWhile_cons_false _ _ _ (by decide)]
    simp
  simp only [splitNetloc, ht]
  rw [drop_length_append host ('/' :: T) _ rfl]

theorem urlsplitL_eval (host T : List Char)
    (hhost : ∀ c ∈ host, c ≠ ':' ∧ c ≠ '/' ∧ c ≠ '?' ∧ c ≠ '#')
    (hT : ∀ c ∈ T, c ≠ ':' ∧ c ≠ '?' ∧ c ≠ '#') :
    urlsplitL ("https://".data ++ (host ++ '/' :: T)) =
      ⟨"https".data, host, '/' :: T, [], []⟩ := by
  have e0 : ("https://".data : List Char) ++ (host ++ '/' :: T) =
      "https".data ++ ':' :: ('/' :: '/' :: (host ++ '/' :: T)) := rfl
  have h1 : splitScheme ("https://".data ++ (host ++ '/' :: T)) =
      ("https".data, '/' :: '/' :: (host ++ '/' :: T)) := by
    rw [e0, splitScheme_of_colon _ _ (by decide) (by decide) (by decide) (by decide)]
    rfl
  have h2 : splitNetloc ('/' :: '/' :: (host ++ '/' :: T)) = (host, '/' :: T) :=
    splitNetloc_eval host T (fun c hc => (hhost c hc).2)
  have h3 : splitOnceL '#' ('/' :: T) = ('/' :: T, []) := by
    apply splitOnceL_no
    intro c hc
    rcases List.mem_cons.mp hc with hc | hc
    · subst hc
      decide
    · exact (hT c hc).2.2
  have h4 : splitOnceL '?' ('/' :: T) = ('/' :: T, []) := by
    apply splitOnceL_no
    intro c hc
    rcases List.mem_cons.mp hc with hc | hc
    · subst hc
      decide
    · exact (hT c hc).2.1
  simp only [urlsplitL, h1, h2, h3, h4]

theorem urlunsplitL_eval (host T : List Char) (hne : host ≠ []) :
    urlunsplitL "https".data host ('/' :: T) = "https://".data ++ (host ++ '/' :: T) := by
  have h1 : host.isEmpty = false := by
    cases host with
    | nil => exact absurd rfl hne
    | cons c l => rfl
  have h2 : isPrefixL ['/'] ('/' :: T) = true := by simp [isPrefixL]
  simp only [urlunsplitL, h1, h2]
  simp

theorem C8_witness :
    ("alice".data.all urlSafeSeg = true ∧ "hw1".data.all urlSafeSeg = true ∧
     "main".data.all urlSafeSeg = true ∧ "src/a.c".data.all urlSafePath = true) ∧
    ((parse_repo_url (fullwidthify (blobUrl "alice" "hw1" "main" "src/a.c")) =
        parse_repo_url (blobUrl "alice" "hw1" "main" "src/a.c") ∧
      parse_repo_url (dropHttpsScheme (blobUrl "alice" "hw1" "main" "src/a.c")) =
        parse_repo_url (blobUrl "alice" "hw1" "main" "src/a.c")) ∧
     (parse_repo_url (fullwidthify (rawUrl "alice" "hw1" "main" "src/a.c")) =
        parse_repo_url (rawUrl "alice" "hw1" "main" "src/a.c") ∧
      parse_repo_url (dropHttpsScheme (rawUrl "alice" "hw1" "main" "src/a.c")) =
        parse_repo_url (rawUrl "alice" "hw1" "main" "src/a.c")) ∧
     (parse_repo_url (fullwidthify (treeUrl "alice" "hw1" "main" "src/a.c")) =
        parse_repo_url (treeUrl "alice" "hw1" "main" "src/a.c") ∧
      parse_repo_url (dropHttpsScheme (treeUrl "alice" "hw1" "main" "src/a.c")) =
        parse_repo_url (treeUrl "alice" "hw1" "main" "src/a.c")) ∧
     (parse_repo_url (fullwidthify (repoUrl "alice" "hw1")) =
        parse_repo_url (repoUrl "alice" "hw1") ∧
      parse_repo_url (dropHttpsScheme (repoUrl "alice" "hw1")) =
        parse_repo_url (repoUrl "alice" "hw1"))) ∧
    parse_repo_url (blobUrl "alice" "hw1" "main" "src/a.c") =
      Except.ok ⟨"alice", "hw1", some "main", "src/a.c"⟩ :=
  ⟨⟨by decide, by decide, by decide, by decide⟩,
   C8_url_shape_invariance "alice" "hw1" "main" "src/a.c"
     (by decide) (by decide) (by decide) (by decide),
   by rfl⟩
